import Mathlib

/-!
Verification development for the `ncsum-rs` tool (`src/main.rs`).

The tool gives files a content-derived identity: the `Name` command (Label)
renames a file to the hex digest of its content and writes a sidecar
`<digest>.ncsum` record; the `Rename` command (Restore / Unbundle) reverses
this from a sidecar or a `.pncsum` container; the `Check` command (Verify)
recomputes digests and reports mismatches, optionally quarantining them.

This file shallowly embeds the relevant parts of `main.rs`:

* `get_hash` / `fileHash` — the digest routine (md5 over the stream where
  every read chunk is zero-padded to the full 1 MiB buffer, exactly as the
  `file_context.consume(buffer)` call in the source consumes the whole
  buffer regardless of how many bytes the read returned);
* `FileInfo` and `fileInfoNew` — the metadata record and its derivation;
* a filesystem model `FS` (path → content map plus a directory set) with
  the primitives `rename`, `create`, `remove_file`, `create_dir_all`
  mirroring their `std::fs` failure conditions;
* `nameOne`, `renameOne`, `checkOne` and the corresponding multi-file
  drivers — the `Commands::Name`, `Commands::Rename` and `Commands::Check`
  arms of `main`, including the always-true suffix guard of `Name`, the
  fall-through rename of empty paths in `Rename`, and the unconditional
  match message of `Check`.

External collaborators that are not part of this repository's source are
modelled from the specification: the record codec (serde_json) as an
injective encode/decode pair, and the container codec (the cpio crate) as a
trailer-terminated sequence of named, length-prefixed entries whose reader
fails on truncated payloads.

Paths are plain strings (`Str := List Char`); file contents are byte lists
(`List Nat`).
-/

/-- Paths and path fragments, as character lists. -/
abbrev Str := List Char

/-- The read buffer size of `get_hash` in `main.rs`: `1024 * 1024`. -/
def bufSize : Nat := 1024 * 1024

/-! ## MD5 (the `md5` crate)

The digest algorithm used by the source via `md5::Context`.  It is embedded
as the standard MD5 function over byte lists; `md5hexStr` is the
`format!("{:x}", …)` rendering used at `main.rs:76`. -/

/-- Truncate to a 32-bit word. -/
def w32 (n : Nat) : Nat := n % 4294967296

/-- 32-bit addition. -/
def wadd (a b : Nat) : Nat := (a + b) % 4294967296

/-- 32-bit left rotation (argument assumed < 2^32). -/
def rotl (x n : Nat) : Nat :=
  ((x <<< n) % 4294967296) ||| (x >>> (32 - n))

/-- MD5 round function F. -/
def md5F (b c d : Nat) : Nat := (b &&& c) ||| ((b ^^^ 4294967295) &&& d)

/-- MD5 round function G. -/
def md5G (b c d : Nat) : Nat := (d &&& b) ||| ((d ^^^ 4294967295) &&& c)

/-- MD5 round function H. -/
def md5H (b c d : Nat) : Nat := b ^^^ c ^^^ d

/-- MD5 round function I. -/
def md5I (b c d : Nat) : Nat := c ^^^ (b ||| (d ^^^ 4294967295))

/-- The 64 MD5 sine constants. -/
def md5K : List Nat :=
  [3614090360, 3905402710, 606105819, 3250441966,
   4118548399, 1200080426, 2821735955, 4249261313,
   1770035416, 2336552879, 4294925233, 2304563134,
   1804603682, 4254626195, 2792965006, 1236535329,
   4129170786, 3225465664, 643717713, 3921069994,
   3593408605, 38016083, 3634488961, 3889429448,
   568446438, 3275163606, 4107603335, 1163531501,
   2850285829, 4243563512, 1735328473, 2368359562,
   4294588738, 2272392833, 1839030562, 4259657740,
   2763975236, 1272893353, 4139469664, 3200236656,
   681279174, 3936430074, 3572445317, 76029189,
   3654602809, 3873151461, 530742520, 3299628645,
   4096336452, 1126891415, 2878612391, 4237533241,
   1700485571, 2399980690, 4293915773, 2240044497,
   1873313359, 4264355552, 2734768916, 1309151649,
   4149444226, 3174756917, 718787259, 3951481745]

/-- The 64 MD5 per-round shift amounts. -/
def md5S : List Nat :=
  [7, 12, 17, 22, 7, 12, 17, 22, 7, 12, 17, 22, 7, 12, 17, 22,
   5, 9, 14, 20, 5, 9, 14, 20, 5, 9, 14, 20, 5, 9, 14, 20,
   4, 11, 16, 23, 4, 11, 16, 23, 4, 11, 16, 23, 4, 11, 16, 23,
   6, 10, 15, 21, 6, 10, 15, 21, 6, 10, 15, 21, 6, 10, 15, 21]

/-- MD5 chaining state. -/
structure MD5St where
  a : Nat
  b : Nat
  c : Nat
  d : Nat
deriving DecidableEq

/-- The initial MD5 state. -/
def md5Init : MD5St := ⟨1732584193, 4023233417, 2562383102, 271733878⟩

/-- One MD5 round `i` (0 ≤ i < 64) over message words `M`. -/
def md5Round (M : Nat → Nat) (st : MD5St) (i : Nat) : MD5St :=
  let fg : Nat × Nat :=
    if i < 16 then (md5F st.b st.c st.d, i)
    else if i < 32 then (md5G st.b st.c st.d, (5 * i + 1) % 16)
    else if i < 48 then (md5H st.b st.c st.d, (3 * i + 5) % 16)
    else (md5I st.b st.c st.d, (7 * i) % 16)
  let t := wadd (wadd (wadd st.a fg.1) (md5K.getD i 0)) (M fg.2)
  ⟨st.d, wadd st.b (rotl t (md5S.getD i 0)), st.b, st.c⟩

/-- Assemble a little-endian 32-bit word from four bytes. -/
def leWord (b0 b1 b2 b3 : Nat) : Nat :=
  (b0 % 256) + (b1 % 256) * 256 + (b2 % 256) * 65536 + (b3 % 256) * 16777216

/-- The sixteen message words of one 64-byte block. -/
def blockWords (blk : List Nat) (i : Nat) : Nat :=
  leWord (blk.getD (4 * i) 0) (blk.getD (4 * i + 1) 0)
    (blk.getD (4 * i + 2) 0) (blk.getD (4 * i + 3) 0)

/-- Process one 64-byte block. -/
def md5Block (st : MD5St) (blk : List Nat) : MD5St :=
  let r := (List.range 64).foldl (md5Round (blockWords blk)) st
  ⟨wadd st.a r.a, wadd st.b r.b, wadd st.c r.c, wadd st.d r.d⟩

/-- Split a byte list into 64-byte blocks. -/
def toBlocks : List Nat → List (List Nat)
  | [] => []
  | x :: xs => ((x :: xs).take 64) :: toBlocks ((x :: xs).drop 64)
termination_by l => l.length
decreasing_by simp [List.length_drop]; omega

/-- Little-endian bytes of the 64-bit bit-length field. -/
def lenBytes (n : Nat) : List Nat :=
  [n % 256, n / 256 % 256, n / 65536 % 256, n / 16777216 % 256,
   n / 4294967296 % 256, n / 1099511627776 % 256,
   n / 281474976710656 % 256, n / 72057594037927936 % 256]

/-- MD5 padding: `0x80`, zeros to 56 mod 64, then the bit length. -/
def md5pad (m : List Nat) : List Nat :=
  m ++ [128] ++ List.replicate ((119 - m.length % 64) % 64) 0 ++ lenBytes (8 * m.length)

/-- The final MD5 state of a message. -/
def md5final (m : List Nat) : MD5St :=
  (toBlocks (md5pad m)).foldl md5Block md5Init

/-- Little-endian bytes of one state word. -/
def wordBytes (w : Nat) : List Nat :=
  [w % 256, w / 256 % 256, w / 65536 % 256, w / 16777216 % 256]

/-- The sixteen digest bytes of a message. -/
def md5out (m : List Nat) : List Nat :=
  let s := md5final m
  wordBytes s.a ++ wordBytes s.b ++ wordBytes s.c ++ wordBytes s.d

/-- A lowercase hex digit. -/
def hexDigit (n : Nat) : Char :=
  if n < 10 then Char.ofNat (48 + n) else Char.ofNat (87 + n)

/-- Two lowercase hex digits of one byte. -/
def byteHex (b : Nat) : Str := [hexDigit (b / 16 % 16), hexDigit (b % 16)]

/-- `format!("{:x}", digest)`: the 32-character lowercase hex rendering. -/
def md5hex (m : List Nat) : Str :=
  (md5out m).foldr (fun b acc => byteHex b ++ acc) []

theorem md5out_length (m : List Nat) : (md5out m).length = 16 := by
  simp [md5out, wordBytes]

theorem md5hex_length (m : List Nat) : (md5hex m).length = 32 := by
  simp only [md5hex, md5out, wordBytes]
  simp [byteHex]

/-! ## `get_hash` (`main.rs:55-77`)

The loop reads into a fresh zeroed 1 MiB buffer, breaks when a read returns
0 bytes, and calls `file_context.consume(buffer)` — consuming the *entire*
buffer, i.e. the chunk it just read followed by zeros up to `bufSize`.
A stream is represented by the list of its successive read results
(each nonempty, of length at most `bufSize`). -/

/-- One read chunk as consumed by `get_hash`: zero-padded to the full buffer. -/
def padChunk (c : List Nat) : List Nat :=
  c ++ List.replicate (bufSize - c.length) 0

/-- `get_hash`: md5 of the concatenation of the zero-padded read chunks. -/
def get_hash (chunks : List (List Nat)) : Str :=
  md5hex (chunks.foldl (fun acc c => acc ++ padChunk c) [])

/-- Successive reads of a regular file: full `bufSize` chunks, then the
remainder. -/
def chunksOf : List Nat → List (List Nat)
  | [] => []
  | x :: xs => ((x :: xs).take bufSize) :: chunksOf ((x :: xs).drop bufSize)
termination_by l => l.length
decreasing_by simp [List.length_drop, bufSize]; omega

/-- The digest the tool computes for a file with the given content. -/
def fileHash (c : List Nat) : Str := get_hash (chunksOf c)

theorem get_hash_length (cs : List (List Nat)) : (get_hash cs).length = 32 :=
  md5hex_length _

theorem fileHash_length (c : List Nat) : (fileHash c).length = 32 :=
  md5hex_length _

/-! ## Suffix tests (`str::ends_with`) -/

/-- `ends_with`: `t` ends with `s`. -/
def endsB (t s : Str) : Bool := t.drop (t.length - s.length) == s

theorem endsB_iff (t s : Str) : endsB t s = true ↔ ∃ p, t = p ++ s := by
  constructor
  · intro h
    simp only [endsB, beq_iff_eq] at h
    refine ⟨t.take (t.length - s.length), ?_⟩
    conv_lhs => rw [← List.take_append_drop (t.length - s.length) t, h]
  · rintro ⟨p, rfl⟩
    simp only [endsB, beq_iff_eq, List.length_append]
    rw [show p.length + s.length - s.length = p.length by omega]
    exact List.drop_left p s

theorem endsB_append (p s : Str) : endsB (p ++ s) s = true :=
  (endsB_iff _ _).mpr ⟨p, rfl⟩

theorem endsB_false_iff (t s : Str) : endsB t s = false ↔ ∀ p, t ≠ p ++ s := by
  rw [← Bool.not_eq_true, endsB_iff]
  push_neg
  rfl

theorem endsB_of_endsB_append (x y s : Str) (h : endsB y s = true) :
    endsB (x ++ y) s = true := by
  obtain ⟨p, rfl⟩ := (endsB_iff _ _).mp h
  rw [← List.append_assoc]
  exact endsB_append _ _

/-- `".ncsum"` as a character list. -/
def ncS : Str := ".ncsum".data

/-- `".pncsum"` as a character list. -/
def pncS : Str := ".pncsum".data

/-- `".tncsum"` as a character list. -/
def tncS : Str := ".tncsum".data

/-- `"ncsum"` (the bare filter of the `Check` arm) as a character list. -/
def ncBareS : Str := "ncsum".data

/-- A string cannot end in both `".ncsum"` and `".pncsum"`. -/
theorem not_endsB_both (s : Str) (h1 : endsB s ncS = true)
    (h2 : endsB s pncS = true) : False := by
  obtain ⟨p, hp⟩ := (endsB_iff _ _).mp h1
  obtain ⟨q, hq⟩ := (endsB_iff _ _).mp h2
  rw [hp] at hq
  have hrev := congrArg List.reverse hq
  simp only [List.reverse_append] at hrev
  have h6 := congrArg (List.take 6) hrev
  rw [List.take_append_of_le_length (by decide),
    List.take_append_of_le_length (by decide)] at h6
  exact absurd h6 (by decide)

/-- The `Name` guard `!ends_with(".ncsum") || !ends_with(".pncsum")`
(`main.rs:166`) is always true. -/
theorem name_guard_true (s : Str) :
    (!(endsB s ncS) || !(endsB s pncS)) = true := by
  cases h1 : endsB s ncS with
  | false => simp
  | true =>
    cases h2 : endsB s pncS with
    | false => simp
    | true => exact (not_endsB_both s h1 h2).elim

theorem endsB_ncsum_bare (s : Str) (h : endsB s ncS = true) :
    endsB s ncBareS = true := by
  obtain ⟨p, rfl⟩ := (endsB_iff _ _).mp h
  exact (endsB_iff _ _).mpr ⟨p ++ ['.'], by simp [ncS, ncBareS]⟩

theorem endsB_pncsum_bare (s : Str) (h : endsB s pncS = true) :
    endsB s ncBareS = true := by
  obtain ⟨p, rfl⟩ := (endsB_iff _ _).mp h
  exact (endsB_iff _ _).mpr ⟨p ++ ['.', 'p'], by simp [pncS, ncBareS]⟩

theorem endsB_pncsum_not_ncsum (s : Str) (h : endsB s pncS = true) :
    endsB s ncS = false := by
  cases hn : endsB s ncS with
  | false => rfl
  | true => exact (not_endsB_both s hn h).elim

/-! ## Path manipulation

The source works with `PathBuf`: `file_name()` (the part after the last
`/`), `parent()` (`None` for `""` and `"/"`), `join` (an absolute argument
replaces the base), and `rfind('.')`-based suffix extraction
(`get_suffix`, `main.rs:97-108`, keeps the dot). -/

/-- The characters after the last occurrence of `sep` (the whole string if
`sep` does not occur). -/
def afterLast (sep : Char) (s : Str) : Str :=
  (s.reverse.takeWhile (fun c => !(c == sep))).reverse

/-- `Path::file_name`: the component after the last slash. -/
def baseName (s : Str) : Str := afterLast '/' s

/-- `Path::parent`, `None` on `""` and `"/"`. -/
def parentOf (s : Str) : Option Str :=
  if s = [] ∨ s = ['/'] then none
  else if s.contains '/' then
    let p := (s.reverse.dropWhile (fun c => !(c == '/'))).reverse
    if p.dropLast = [] then some ['/'] else some p.dropLast
  else some []

/-- `Path::join`: an absolute right operand replaces the left. -/
def joinPath (a b : Str) : Str :=
  if b.head? = some '/' then b
  else if a = [] then b
  else if a = ['/'] then '/' :: b
  else a ++ '/' :: b

/-- `get_suffix`: the file name from its last `.` onward (requires a dot). -/
def dotSuffix (nm : Str) : Str :=
  '.' :: (nm.reverse.takeWhile (fun c => !(c == '.'))).reverse

/-- The scanning loop of `String::replace`, structurally recursive on a
fuel that starts at the string length (each step consumes at least one
character, so the fuel never runs out on the initial call). -/
def replaceGo (fr rep : Str) : Nat → Str → Str
  | 0, s => s
  | fuel + 1, s =>
    match s with
    | [] => []
    | c :: cs =>
      if fr ≠ [] ∧ fr <+: (c :: cs) then
        rep ++ replaceGo fr rep fuel ((c :: cs).drop fr.length)
      else c :: replaceGo fr rep fuel cs

/-- `String::replace`: replace every occurrence of `fr` (nonempty) by `rep`. -/
def replaceAll (s fr rep : Str) : Str := replaceGo fr rep s.length s

theorem takeWhile_ne_of_not_mem (sep : Char) (l : Str) (h : sep ∉ l) :
    l.takeWhile (fun c => !(c == sep)) = l := by
  induction l with
  | nil => rfl
  | cons c t ih =>
    simp only [List.mem_cons, not_or] at h
    rw [List.takeWhile_cons, if_pos (by simp [bne]; exact fun e => h.1 e.symm)]
    rw [ih h.2]

theorem takeWhile_ne_append (sep : Char) (l rest : Str) (h : sep ∉ l) :
    (l ++ sep :: rest).takeWhile (fun c => !(c == sep)) = l := by
  induction l with
  | nil => simp [List.takeWhile_cons]
  | cons c t ih =>
    simp only [List.mem_cons, not_or] at h
    rw [List.cons_append, List.takeWhile_cons,
      if_pos (by simp [bne]; exact fun e => h.1 e.symm)]
    rw [ih h.2]

theorem dropWhile_ne_append (sep : Char) (l rest : Str) (h : sep ∉ l) :
    (l ++ sep :: rest).dropWhile (fun c => !(c == sep)) = sep :: rest := by
  induction l with
  | nil => simp [List.dropWhile_cons]
  | cons c t ih =>
    simp only [List.mem_cons, not_or] at h
    rw [List.cons_append, List.dropWhile_cons,
      if_pos (by simp [bne]; exact fun e => h.1 e.symm)]
    exact ih h.2

theorem head_ne_slash (nm : Str) (hns : ('/' : Char) ∉ nm) :
    nm.head? ≠ some '/' := by
  cases nm with
  | nil => simp
  | cons c t =>
    simp only [List.head?_cons, ne_eq, Option.some.injEq]
    intro hc
    exact hns (hc ▸ List.mem_cons_self c t)

theorem baseName_join (d nm : Str) (_hne : nm ≠ []) (hns : ('/' : Char) ∉ nm) :
    baseName (joinPath d nm) = nm := by
  have hrev : ('/' : Char) ∉ nm.reverse := fun h => hns (List.mem_reverse.mp h)
  unfold joinPath
  rw [if_neg (head_ne_slash nm hns)]
  by_cases hd0 : d = []
  · rw [if_pos hd0]
    unfold baseName afterLast
    rw [takeWhile_ne_of_not_mem _ _ hrev, List.reverse_reverse]
  · rw [if_neg hd0]
    by_cases hd1 : d = ['/']
    · rw [if_pos hd1]
      unfold baseName afterLast
      rw [show ('/' :: nm).reverse = nm.reverse ++ '/' :: [] by simp]
      rw [takeWhile_ne_append _ _ _ hrev, List.reverse_reverse]
    · rw [if_neg hd1]
      unfold baseName afterLast
      rw [show (d ++ '/' :: nm).reverse = nm.reverse ++ '/' :: d.reverse by simp]
      rw [takeWhile_ne_append _ _ _ hrev, List.reverse_reverse]

theorem contains_iff_mem (l : Str) (c : Char) : l.contains c = true ↔ c ∈ l := by
  simp [List.contains, List.elem_iff]

theorem contains_eq_false_of_not_mem (l : Str) (c : Char) (h : c ∉ l) :
    l.contains c = false := by
  rw [← Bool.not_eq_true]
  intro hc
  exact h ((contains_iff_mem l c).mp hc)

theorem parentOf_join (d nm : Str) (hne : nm ≠ []) (hns : ('/' : Char) ∉ nm) :
    parentOf (joinPath d nm) = some d := by
  have hrev : ('/' : Char) ∉ nm.reverse := fun h => hns (List.mem_reverse.mp h)
  unfold joinPath
  rw [if_neg (head_ne_slash nm hns)]
  have hlen : 0 < nm.length := List.length_pos.mpr hne
  by_cases hd0 : d = []
  · rw [if_pos hd0]
    unfold parentOf
    rw [if_neg (by
      push_neg
      refine ⟨hne, ?_⟩
      intro h1
      exact hns (h1 ▸ List.mem_cons_self '/' []))]
    rw [if_neg (by rw [contains_eq_false_of_not_mem nm '/' hns]; simp)]
    rw [hd0]
  · rw [if_neg hd0]
    by_cases hd1 : d = ['/']
    · rw [if_pos hd1]
      unfold parentOf
      rw [if_neg (by
        push_neg
        constructor
        · simp
        · intro h1
          injection h1 with h1a h1b
          exact hne h1b)]
      rw [if_pos (by simp)]
      simp only
      rw [show ('/' :: nm).reverse = nm.reverse ++ '/' :: [] by simp]
      rw [dropWhile_ne_append _ _ _ hrev]
      simp [hd1]
    · rw [if_neg hd1]
      unfold parentOf
      rw [if_neg (by
        push_neg
        constructor
        · simp [hd0]
        · intro h1
          have hl2 := congrArg List.length h1
          simp only [List.length_append, List.length_cons, List.length_nil] at hl2
          have hd : d.length = 0 := by omega
          exact hd0 (List.eq_nil_of_length_eq_zero hd))]
      rw [if_pos (by
        refine (contains_iff_mem _ _).mpr ?_
        exact List.mem_append.mpr (Or.inr (List.mem_cons_self '/' nm)))]
      simp only
      rw [show (d ++ '/' :: nm).reverse = nm.reverse ++ '/' :: d.reverse by simp]
      rw [dropWhile_ne_append _ _ _ hrev]
      rw [show ('/' :: d.reverse).reverse = d ++ ['/'] by simp]
      rw [List.dropLast_concat]
      rw [if_neg hd0]

theorem dropWhile_head_false (p : Char → Bool) (l : Str) (c : Char) (t : Str)
    (h : l.dropWhile p = c :: t) : p c = false := by
  induction l with
  | nil => cases h
  | cons a l ih =>
    rw [List.dropWhile_cons] at h
    by_cases hp : p a = true
    · rw [if_pos hp] at h
      exact ih h
    · rw [if_neg hp] at h
      injection h with h1 h2
      rw [← h1]
      exact Bool.eq_false_iff.mpr hp

theorem dotSuffix_is_suffix (nm : Str) (h : nm.contains '.' = true) :
    ∃ p, nm = p ++ dotSuffix nm := by
  have hmem : '.' ∈ nm.reverse := List.mem_reverse.mpr ((contains_iff_mem _ _).mp h)
  have hsplit := List.takeWhile_append_dropWhile (fun c => !(c == '.')) nm.reverse
  have hdw : ∃ t, nm.reverse.dropWhile (fun c => !(c == '.')) = '.' :: t := by
    rcases hd : nm.reverse.dropWhile (fun c => !(c == '.')) with _ | ⟨c, t⟩
    · exfalso
      have hall : ∀ x ∈ nm.reverse, (fun c => !(c == '.')) x = true := by
        rw [← List.takeWhile_eq_self_iff]
        conv_rhs => rw [← hsplit]
        rw [hd, List.append_nil]
      have hc := hall '.' hmem
      simp at hc
    · have hc := dropWhile_head_false _ _ _ _ hd
      have hcd : c = '.' := by simpa using hc
      exact ⟨t, by rw [hcd]⟩
  obtain ⟨t, ht⟩ := hdw
  refine ⟨t.reverse, ?_⟩
  have hs2 := congrArg List.reverse hsplit
  rw [List.reverse_append, List.reverse_reverse] at hs2
  conv_lhs => rw [← hs2]
  rw [ht]
  simp [dotSuffix]

theorem endsB_dotSuffix (nm : Str) (h : nm.contains '.' = true) :
    endsB nm (dotSuffix nm) = true := by
  obtain ⟨p, hp⟩ := dotSuffix_is_suffix nm h
  exact (endsB_iff _ _).mpr ⟨p, hp⟩

theorem mem_dotSuffix (nm : Str) (c : Char) (hc : c ∈ dotSuffix nm) :
    c = '.' ∨ c ∈ nm := by
  simp only [dotSuffix, List.mem_cons] at hc
  rcases hc with hc | hc
  · exact Or.inl hc
  · right
    have hrev := List.mem_reverse.mp hc
    have := (List.takeWhile_sublist _).mem hrev
    exact List.mem_reverse.mp this

/-! ## Hex digests contain no slash -/

theorem hexDigit_ne_slash (n : Nat) (h : n < 16) : hexDigit n ≠ '/' := by
  interval_cases n <;> decide

theorem mem_md5hex (m : List Nat) (c : Char) (hc : c ∈ md5hex m) :
    ∃ n, n < 16 ∧ c = hexDigit n := by
  simp only [md5hex] at hc
  generalize hl : md5out m = L at hc
  clear hl
  induction L with
  | nil => simp at hc
  | cons b t ih =>
    simp only [List.foldr_cons] at hc
    rcases List.mem_append.mp hc with hm | hm
    · simp only [byteHex, List.mem_cons, List.not_mem_nil, or_false] at hm
      rcases hm with hm | hm
      · exact ⟨b / 16 % 16, Nat.mod_lt _ (by norm_num), hm⟩
      · exact ⟨b % 16, Nat.mod_lt _ (by norm_num), hm⟩
    · exact ih hm

theorem slash_not_mem_md5hex (m : List Nat) : ('/' : Char) ∉ md5hex m := by
  intro hc
  obtain ⟨n, hn, he⟩ := mem_md5hex m '/' hc
  exact hexDigit_ne_slash n hn he.symm

theorem slash_not_mem_fileHash (c : List Nat) : ('/' : Char) ∉ fileHash c :=
  slash_not_mem_md5hex _

theorem fileHash_ne_nil (c : List Nat) : fileHash c ≠ [] := by
  intro h
  have hl := congrArg List.length h
  rw [fileHash_length] at hl
  simp at hl

/-! ## The metadata record (`FileInfo`, `main.rs:111-117`) and its codec -/

/-- The sidecar record: digest, original path, hash-named path, sidecar path. -/
structure FileInfo where
  hash : Str
  old_name : Str
  new_name : Str
  ncsum_name : Str
deriving DecidableEq

/-- The all-empty placeholder record the source initializes with
(`main.rs:209-214`, `374-379`). -/
def emptyInfo : FileInfo := ⟨[], [], [], []⟩

/-- Modelled from the spec: the RecordCodec (serde_json in the source, an
external collaborator; spec §1 scopes out the byte-level grammar and §2/§6
require only an injective encode with a decode that fails on malformed
input).  Strings are length-prefixed lists of character codes. -/
def encodeStr (s : Str) : List Nat := s.length :: s.map Char.toNat

/-- Modelled from the spec: RecordCodec encoding of a `FileInfo`. -/
def encodeInfo (i : FileInfo) : List Nat :=
  encodeStr i.hash ++ (encodeStr i.old_name ++ (encodeStr i.new_name ++ encodeStr i.ncsum_name))

/-- Modelled from the spec: RecordCodec string decoding; fails on malformed
input. -/
def decodeStr : List Nat → Option (Str × List Nat)
  | [] => none
  | n :: rest =>
    if n ≤ rest.length then
      some ((rest.take n).map (fun k => Char.ofNat k), rest.drop n)
    else none

/-- Modelled from the spec: RecordCodec decoding of a `FileInfo`
(`serde_json::from_reader`); fails on malformed or trailing input. -/
def decodeInfo (m : List Nat) : Option FileInfo :=
  match decodeStr m with
  | none => none
  | some (h, r1) =>
    match decodeStr r1 with
    | none => none
    | some (o, r2) =>
      match decodeStr r2 with
      | none => none
      | some (nn, r3) =>
        match decodeStr r3 with
        | none => none
        | some (nc, r4) => if r4 = [] then some ⟨h, o, nn, nc⟩ else none

theorem decodeStr_encodeStr (s : Str) (r : List Nat) :
    decodeStr (encodeStr s ++ r) = some (s, r) := by
  simp only [encodeStr, List.cons_append, decodeStr]
  rw [if_pos (by simp)]
  rw [List.take_append_of_le_length (by simp), List.take_of_length_le (by simp),
    List.drop_append_of_le_length (by simp)]
  rw [List.drop_of_length_le (by simp), List.nil_append]
  simp [List.map_map, Function.comp_def, Char.ofNat_toNat]

theorem decodeInfo_encodeInfo (i : FileInfo) : decodeInfo (encodeInfo i) = some i := by
  have h4 : encodeStr i.ncsum_name = encodeStr i.ncsum_name ++ [] := by simp
  simp only [decodeInfo, encodeInfo, decodeStr_encodeStr]
  rw [h4, decodeStr_encodeStr]
  simp

/-! ## The filesystem model

`FS` maps paths to file contents and carries the set of existing
directories.  `fsRename` and `fsCreate` fail when the source file is
missing or the destination's parent directory does not exist, matching
`std::fs::rename` / `File::create`; `fsDel` fails on a missing file;
`create_dir_all` always succeeds. -/

/-- A filesystem: file contents by path, plus existing directories.  The
root `""`/`"/"` directories always exist. -/
structure FS where
  files : Str → Option (List Nat)
  dirs : List Str

/-- Write (create or truncate-and-write) a file. -/
def fsInsert (fs : FS) (p : Str) (c : List Nat) : FS :=
  ⟨fun q => if q = p then some c else fs.files q, fs.dirs⟩

/-- Forget a path. -/
def fsRemove (fs : FS) (p : Str) : FS :=
  ⟨fun q => if q = p then none else fs.files q, fs.dirs⟩

/-- Does the (optional) directory exist? -/
def dirOk (fs : FS) (d : Option Str) : Bool :=
  match d with
  | none => false
  | some d => d == ([] : Str) || d == ['/'] || fs.dirs.contains d

/-- `std::fs::rename`: fails if the source is missing or the destination's
parent directory does not exist. -/
def fsRename (fs : FS) (src dst : Str) : Option FS :=
  match fs.files src with
  | none => none
  | some c =>
    if dirOk fs (parentOf dst) then some (fsInsert (fsRemove fs src) dst c)
    else none

/-- `File::create` followed by `write_all`: fails if the parent directory
does not exist. -/
def fsCreate (fs : FS) (p : Str) (c : List Nat) : Option FS :=
  if dirOk fs (parentOf p) then some (fsInsert fs p c) else none

/-- `std::fs::remove_file`: fails on a missing file. -/
def fsDel (fs : FS) (p : Str) : Option FS :=
  match fs.files p with
  | none => none
  | some _ => some (fsRemove fs p)

/-- `std::fs::create_dir_all`. -/
def fsMkdirAll (fs : FS) (d : Str) : FS := ⟨fs.files, d :: fs.dirs⟩

theorem fsInsert_files (fs : FS) (p : Str) (c : List Nat) (q : Str) :
    (fsInsert fs p c).files q = if q = p then some c else fs.files q := rfl

theorem fsRemove_files (fs : FS) (p : Str) (q : Str) :
    (fsRemove fs p).files q = if q = p then none else fs.files q := rfl

/-- Errors on which the process prints a diagnostic and exits (or panics);
the variants distinguish the diagnostic. -/
inductive RunErr
  /-- An `std::fs`/`File` operation failed (`println!("{e}")` + exit). -/
  | fsErr
  /-- Record decoding failed (`serde_json` error + exit). -/
  | codecErr
  /-- The container stream is malformed or truncated (reader error + exit). -/
  | streamErr
  /-- "An error occurred while unpacking the archive" (`main.rs:322`). -/
  | unpackMismatch
  /-- An `expect`/`unwrap` panic (missing file name, suffix or parent). -/
  | panicErr
deriving DecidableEq

/-- The per-file messages `Check` prints. -/
inductive Msg
  /-- "{}: The sum does not match" (`main.rs:452`). -/
  | mism (nm : Str)
  /-- "{}: The sum matches" (`main.rs:456`). -/
  | okmsg (nm : Str)
deriving DecidableEq

/-- Result of processing input paths: final filesystem, printed `Check`
messages, and the error that aborted the process, if any. -/
structure StepRes where
  fs : FS
  msgs : List Msg
  err : Option RunErr

/-! ## `FileInfo::new` (`main.rs:119-148`) -/

/-- `FileInfo::new`: hash the file (open failure exits), then derive the
suffix from the file name (`expect` panics on a missing name or dot) and
the two sibling paths from the parent (`expect` panics when absent). -/
def fileInfoNew (fs : FS) (file : Str) : Except RunErr FileInfo :=
  match fs.files file with
  | none => .error .fsErr
  | some c =>
    let h := fileHash c
    let base := baseName file
    if base = [] then .error .panicErr
    else if base.contains '.' then
      match parentOf file with
      | none => .error .panicErr
      | some par =>
        .ok ⟨h, file, joinPath par (h ++ dotSuffix base), joinPath par (h ++ ncS)⟩
    else .error .panicErr

/-! ## The `Name` arm (`main.rs:162-203`) -/

/-- One iteration of the `Commands::Name` loop: the (always-true) suffix
guard, `FileInfo::new`, sidecar creation + JSON write, and the rename of
the original onto its hash name.  Any failure exits. -/
def nameOne (fs : FS) (file : Str) : StepRes :=
  if !(endsB file ncS) || !(endsB file pncS) then
    match fileInfoNew fs file with
    | .error e => ⟨fs, [], some e⟩
    | .ok info =>
      match fsCreate fs info.ncsum_name (encodeInfo info) with
      | none => ⟨fs, [], some .fsErr⟩
      | some fs1 =>
        match fsRename fs1 info.old_name info.new_name with
        | none => ⟨fs1, [], some .fsErr⟩
        | some fs2 => ⟨fs2, [], none⟩
  else ⟨fs, [], none⟩

/-! ## The container codec (the `cpio` crate, `NewcReader`/`write_cpio`)

Modelled from the spec (§4.3): an ordered sequence of named entries, each
carrying a name, a byte length and payload bytes, terminated by an explicit
trailer; malformed headers, truncated payloads and premature end-of-stream
are fatal stream errors. -/

/-- One parsed step of the container stream. -/
inductive EntryStep
  | trailer
  | entry (nm : Str) (payload : List Nat) (rest : List Nat)

/-- Modelled from the spec: encoding of one named entry. -/
def encodeEntry (nm : Str) (payload : List Nat) : List Nat :=
  1 :: nm.length :: (nm.map Char.toNat ++ (payload.length :: payload))

/-- Modelled from the spec: the trailer marking end-of-stream. -/
def trailerBytes : List Nat := [0]

/-- Modelled from the spec: read the next entry; fails on a malformed
header, a truncated payload, or missing bytes. -/
def readEntry : List Nat → Except RunErr EntryStep
  | [] => .error .streamErr
  | 0 :: _ => .ok .trailer
  | 1 :: rest =>
    (match rest with
    | [] => .error .streamErr
    | n :: r2 =>
      if n ≤ r2.length then
        match r2.drop n with
        | [] => .error .streamErr
        | len :: r4 =>
          if len ≤ r4.length then
            .ok (.entry ((r2.take n).map (fun k => Char.ofNat k)) (r4.take len) (r4.drop len))
          else .error .streamErr
      else .error .streamErr)
  | _ :: _ => .error .streamErr

theorem readEntry_encodeEntry (nm : Str) (payload : List Nat) (rest : List Nat) :
    readEntry (encodeEntry nm payload ++ rest) = .ok (.entry nm payload rest) := by
  simp only [encodeEntry, List.cons_append, List.append_assoc, readEntry]
  rw [if_pos (by simp)]
  rw [show (List.map Char.toNat nm ++ (payload.length :: (payload ++ rest))).drop nm.length
      = payload.length :: (payload ++ rest) by
    rw [List.drop_append_of_le_length (by simp), List.drop_of_length_le (by simp),
      List.nil_append]]
  simp only []
  rw [if_pos (by simp)]
  rw [List.take_append_of_le_length (by simp), List.take_of_length_le (by simp),
    List.take_append_of_le_length (by simp), List.take_of_length_le (by simp),
    List.drop_append_of_le_length (by simp), List.drop_of_length_le (by simp),
    List.nil_append]
  simp [List.map_map, Function.comp_def, Char.ofNat_toNat]

/-! ## The `Rename` arm (`main.rs:205-353`) -/

/-- The code after the `if`/`else if` chain of the `Rename` loop
(`main.rs:335-351`): rename the content to its original name, then delete
the sidecar/container; failures exit. -/
def renameTail (fs : FS) (info : FileInfo) (old : Str) : StepRes :=
  match fsRename fs info.new_name old with
  | none => ⟨fs, [], some .fsErr⟩
  | some fs1 =>
    match fsDel fs1 info.ncsum_name with
    | none => ⟨fs1, [], some .fsErr⟩
    | some fs2 => ⟨fs2, [], none⟩

/-- The entry loop of the `.pncsum` branch (`main.rs:253-305`): `.ncsum`
entries are decoded as the record, other entries are appended to the
`.tncsum` output; errors carry the bytes already written. -/
def unpackLoop : Nat → List Nat → FileInfo → List Nat →
    Except (RunErr × List Nat) (FileInfo × List Nat)
  | 0, _, _, out => .error (.streamErr, out)
  | fuel + 1, bytes, info, out =>
    match readEntry bytes with
    | .error e => .error (e, out)
    | .ok .trailer => .ok (info, out)
    | .ok (.entry nm payload rest) =>
      if endsB nm ncS then
        match decodeInfo payload with
        | none => .error (.codecErr, out)
        | some i => unpackLoop fuel rest i out
      else unpackLoop fuel rest info (out ++ payload)

/-- One iteration of the `Commands::Rename` loop.  A `.ncsum` input decodes
the sidecar; a `.pncsum` input streams the container into a `.tncsum` file
and verifies its digest against the record, removing the temporary file and
exiting on mismatch; any other input falls through to the common tail with
the empty placeholder record (renaming `""` to `""`). -/
def renameOne (fs : FS) (file : Str) : StepRes :=
  if endsB file ncS then
    match fs.files file with
    | none => ⟨fs, [], some .fsErr⟩
    | some bytes =>
      match decodeInfo bytes with
      | none => ⟨fs, [], some .codecErr⟩
      | some info => renameTail fs info info.old_name
  else if endsB file pncS then
    match fs.files file with
    | none => ⟨fs, [], some .fsErr⟩
    | some bytes =>
      let tname := replaceAll file pncS tncS
      if dirOk fs (parentOf tname) then
        match unpackLoop (bytes.length + 1) bytes emptyInfo [] with
        | .error (e, out) => ⟨fsInsert fs tname out, [], some e⟩
        | .ok (info0, out) =>
          let fs2 := fsInsert fs tname out
          let info1 : FileInfo := ⟨info0.hash, info0.old_name, tname, file⟩
          match fileInfoNew fs2 tname with
          | .error e => ⟨fs2, [], some e⟩
          | .ok tinfo =>
            if tinfo.hash ≠ info1.hash then
              match fsDel fs2 tinfo.old_name with
              | none => ⟨fs2, [], some .fsErr⟩
              | some fs3 => ⟨fs3, [], some .unpackMismatch⟩
            else renameTail fs2 info1 info0.old_name
      else ⟨fs, [], some .fsErr⟩
  else renameTail fs emptyInfo []

/-! ## The `Check` arm (`main.rs:355-492`) -/

/-- The entry loop of the `.pncsum` branch of `Check`
(`main.rs:418-448`): `.ncsum` entries decode the record, and each other
entry's digest (computed by `get_hash` reading the entry in buffer-sized
chunks) replaces `new_hash`. -/
def scanLoop : Nat → List Nat → FileInfo → Str → Except RunErr (FileInfo × Str)
  | 0, _, _, _ => .error .streamErr
  | fuel + 1, bytes, info, nh =>
    match readEntry bytes with
    | .error e => .error e
    | .ok .trailer => .ok (info, nh)
    | .ok (.entry nm payload rest) =>
      if endsB nm ncS then
        match decodeInfo payload with
        | none => .error .codecErr
        | some i => scanLoop fuel rest i nh
      else scanLoop fuel rest info (fileHash payload)

/-- The branch dispatch of `Check` (`main.rs:383-449`), producing the
record and the recomputed digest; inputs ending in bare `ncsum` but in
neither suffix leave the empty record and empty digest. -/
def checkScan (fs : FS) (file : Str) : Except RunErr (FileInfo × Str) :=
  if endsB file ncS then
    match fs.files file with
    | none => .error .fsErr
    | some bytes =>
      match decodeInfo bytes with
      | none => .error .codecErr
      | some info =>
        match fs.files info.new_name with
        | none => .error .fsErr
        | some c => .ok (info, fileHash c)
  else if endsB file pncS then
    match fs.files file with
    | none => .error .fsErr
    | some bytes => scanLoop (bytes.length + 1) bytes emptyInfo []
  else .ok (emptyInfo, [])

/-- One iteration of the `Commands::Check` loop: the bare `ncsum` filter
(`main.rs:369-371`), the branch dispatch, the reporting (a mismatch message
when the digests differ, and the match message whenever
`only_show_mismatches` is off — regardless of the comparison), and the
quarantine block when the digests differ and `separate_mismatches` is on. -/
def checkOne (fs : FS) (file : Str) (onlyMism sep : Bool) : StepRes :=
  if !(endsB file ncBareS) then ⟨fs, [], none⟩
  else
    match checkScan fs file with
    | .error e => ⟨fs, [], some e⟩
    | .ok (info, nh) =>
      let msgs := (if info.hash ≠ nh then [Msg.mism info.old_name] else []) ++
        (if onlyMism = false then [Msg.okmsg info.old_name] else [])
      if info.hash ≠ nh ∧ sep = true then
        match parentOf file with
        | none => ⟨fs, msgs, some .panicErr⟩
        | some par =>
          let sdir := joinPath par info.hash
          let fs1 := fsMkdirAll fs sdir
          let ofile := joinPath sdir info.new_name
          if baseName file = [] then ⟨fs1, msgs, some .panicErr⟩
          else
            let nfile := joinPath sdir (baseName file)
            match (if endsB file ncS then fsRename fs1 info.new_name ofile else some fs1) with
            | none => ⟨fs1, msgs, some .fsErr⟩
            | some fs2 =>
              match fsRename fs2 file nfile with
              | none => ⟨fs2, msgs, some .fsErr⟩
              | some fs3 => ⟨fs3, msgs, none⟩
      else ⟨fs, msgs, none⟩

/-! ## The drivers (the `for file in files` loops of `main`)

Each command processes its input paths in order; any error aborts the whole
run (`std::process::exit`), so the remaining paths are not processed. -/

/-- The `Name` loop over all input paths. -/
def nameRun : FS → List Str → StepRes
  | fs, [] => ⟨fs, [], none⟩
  | fs, f :: rest =>
    let r := nameOne fs f
    match r.err with
    | some e => ⟨r.fs, r.msgs, some e⟩
    | none =>
      let r2 := nameRun r.fs rest
      ⟨r2.fs, r.msgs ++ r2.msgs, r2.err⟩

/-- The `Rename` loop over all input paths. -/
def renameRun : FS → List Str → StepRes
  | fs, [] => ⟨fs, [], none⟩
  | fs, f :: rest =>
    let r := renameOne fs f
    match r.err with
    | some e => ⟨r.fs, r.msgs, some e⟩
    | none =>
      let r2 := renameRun r.fs rest
      ⟨r2.fs, r.msgs ++ r2.msgs, r2.err⟩

/-- The `Check` loop over all input paths. -/
def checkRun : FS → Bool → Bool → List Str → StepRes
  | fs, _, _, [] => ⟨fs, [], none⟩
  | fs, o, s, f :: rest =>
    let r := checkOne fs f o s
    match r.err with
    | some e => ⟨r.fs, r.msgs, some e⟩
    | none =>
      let r2 := checkRun r.fs o s rest
      ⟨r2.fs, r.msgs ++ r2.msgs, r2.err⟩

/-! ## Characterization lemmas -/

/-- A directory `d` holding exactly one file `d/nm` with content `c`. -/
def singleFS (d nm : Str) (c : List Nat) : FS :=
  ⟨fun q => if q = joinPath d nm then some c else none, [d]⟩

theorem singleFS_files (d nm : Str) (c : List Nat) (q : Str) :
    (singleFS d nm c).files q = if q = joinPath d nm then some c else none := rfl

theorem dirOk_self (f : Str → Option (List Nat)) (d : Str) :
    dirOk ⟨f, [d]⟩ (some d) = true := by
  simp [dirOk, List.contains]

theorem slash_not_mem_hash_append (c : List Nat) (s : Str)
    (hs : ('/' : Char) ∉ s) : ('/' : Char) ∉ fileHash c ++ s := by
  intro hm
  rcases List.mem_append.mp hm with hm | hm
  · exact slash_not_mem_fileHash c hm
  · exact hs hm

theorem hash_append_ne_nil (c : List Nat) (s : Str) :
    (fileHash c ++ s : Str) ≠ [] := by
  intro h
  exact fileHash_ne_nil c (List.append_eq_nil.mp h).1

theorem slash_not_mem_dotSuffix (nm : Str) (h2 : ('/' : Char) ∉ nm) :
    ('/' : Char) ∉ dotSuffix nm := by
  intro hm
  rcases mem_dotSuffix nm '/' hm with hm | hm
  · exact absurd hm (by decide)
  · exact h2 hm

theorem fileInfoNew_spec (fs : FS) (d nm : Str) (c : List Nat)
    (h1 : nm ≠ []) (h2 : ('/' : Char) ∉ nm) (h3 : nm.contains '.' = true)
    (hc : fs.files (joinPath d nm) = some c) :
    fileInfoNew fs (joinPath d nm) = .ok ⟨fileHash c, joinPath d nm,
      joinPath d (fileHash c ++ dotSuffix nm), joinPath d (fileHash c ++ ncS)⟩ := by
  unfold fileInfoNew
  rw [hc]
  simp only [baseName_join d nm h1 h2, parentOf_join d nm h1 h2]
  rw [if_neg h1, if_pos h3]

theorem nameOne_label (d nm : Str) (c : List Nat)
    (h1 : nm ≠ []) (h2 : ('/' : Char) ∉ nm) (h3 : nm.contains '.' = true)
    (h4 : joinPath d nm ≠ joinPath d (fileHash c ++ ncS)) :
    nameOne (singleFS d nm c) (joinPath d nm) =
      ⟨fsInsert (fsRemove (fsInsert (singleFS d nm c)
          (joinPath d (fileHash c ++ ncS))
          (encodeInfo ⟨fileHash c, joinPath d nm,
            joinPath d (fileHash c ++ dotSuffix nm),
            joinPath d (fileHash c ++ ncS)⟩))
          (joinPath d nm))
        (joinPath d (fileHash c ++ dotSuffix nm)) c, [], none⟩ := by
  have hparSc : parentOf (joinPath d (fileHash c ++ ncS)) = some d :=
    parentOf_join _ _ (hash_append_ne_nil c ncS)
      (slash_not_mem_hash_append c ncS (by decide))
  have hparLp : parentOf (joinPath d (fileHash c ++ dotSuffix nm)) = some d :=
    parentOf_join _ _ (hash_append_ne_nil c (dotSuffix nm))
      (slash_not_mem_hash_append c (dotSuffix nm) (slash_not_mem_dotSuffix nm h2))
  unfold nameOne
  rw [name_guard_true, if_pos rfl]
  rw [fileInfoNew_spec (singleFS d nm c) d nm c h1 h2 h3
    (by rw [singleFS_files, if_pos rfl])]
  simp only
  unfold fsCreate
  rw [hparSc]
  rw [show dirOk (singleFS d nm c) (some d) = true from dirOk_self _ d, if_pos rfl]
  simp only
  unfold fsRename
  rw [show (fsInsert (singleFS d nm c) (joinPath d (fileHash c ++ ncS))
      (encodeInfo ⟨fileHash c, joinPath d nm,
        joinPath d (fileHash c ++ dotSuffix nm),
        joinPath d (fileHash c ++ ncS)⟩)).files (joinPath d nm) = some c by
    rw [fsInsert_files, if_neg h4, singleFS_files, if_pos rfl]]
  rw [hparLp]
  rw [show dirOk (fsInsert (singleFS d nm c) (joinPath d (fileHash c ++ ncS))
      (encodeInfo ⟨fileHash c, joinPath d nm,
        joinPath d (fileHash c ++ dotSuffix nm),
        joinPath d (fileHash c ++ ncS)⟩)) (some d) = true from dirOk_self _ d]
  rfl

theorem fsInsert_dirs (fs : FS) (p : Str) (c : List Nat) :
    (fsInsert fs p c).dirs = fs.dirs := rfl

theorem fsRemove_dirs (fs : FS) (p : Str) : (fsRemove fs p).dirs = fs.dirs := rfl

theorem singleFS_dirs (d nm : Str) (c : List Nat) : (singleFS d nm c).dirs = [d] := rfl

theorem dirOk_of_dirs (fs : FS) (d : Str) (h : fs.dirs = [d]) :
    dirOk fs (some d) = true := by
  simp [dirOk, h, List.contains]

theorem joinPath_inj (d a b : Str) (ha : ('/' : Char) ∉ a) (hb : ('/' : Char) ∉ b)
    (h : joinPath d a = joinPath d b) : a = b := by
  have hha : a.head? ≠ some '/' := head_ne_slash a ha
  have hhb : b.head? ≠ some '/' := head_ne_slash b hb
  unfold joinPath at h
  rw [if_neg hha, if_neg hhb] at h
  by_cases hd0 : d = []
  · rwa [if_pos hd0, if_pos hd0] at h
  · rw [if_neg hd0, if_neg hd0] at h
    by_cases hd1 : d = ['/']
    · rw [if_pos hd1, if_pos hd1] at h
      injection h
    · rw [if_neg hd1, if_neg hd1] at h
      have := List.append_cancel_left h
      injection this

theorem endsB_joinPath (d x s : Str) (h : endsB x s = true) :
    endsB (joinPath d x) s = true := by
  unfold joinPath
  by_cases hh : x.head? = some '/'
  · rw [if_pos hh]
    exact h
  · rw [if_neg hh]
    by_cases hd0 : d = []
    · rw [if_pos hd0]
      exact h
    · rw [if_neg hd0]
      by_cases hd1 : d = ['/']
      · rw [if_pos hd1]
        rw [show ('/' :: x : Str) = ['/'] ++ x from rfl]
        exact endsB_of_endsB_append _ _ _ h
      · rw [if_neg hd1]
        rw [show (d ++ '/' :: x : Str) = d ++ ('/' :: x) from rfl,
          show ('/' :: x : Str) = ['/'] ++ x from rfl]
        exact endsB_of_endsB_append _ _ _ (endsB_of_endsB_append _ _ _ h)

/-- `Restore` on a well-formed sidecar: decode, rename the hash-named file
back, delete the sidecar. -/
theorem renameOne_restore (fs : FS) (sc : Str) (info : FileInfo) (c' : List Nat)
    (hends : endsB sc ncS = true)
    (hsc : fs.files sc = some (encodeInfo info))
    (hnew : fs.files info.new_name = some c')
    (hdir : dirOk fs (parentOf info.old_name) = true)
    (hpres : (fsInsert (fsRemove fs info.new_name) info.old_name c').files
      info.ncsum_name ≠ none) :
    renameOne fs sc =
      ⟨fsRemove (fsInsert (fsRemove fs info.new_name) info.old_name c')
        info.ncsum_name, [], none⟩ := by
  unfold renameOne
  rw [if_pos hends, hsc]
  simp only
  rw [decodeInfo_encodeInfo]
  simp only
  unfold renameTail fsRename
  rw [hnew]
  simp only
  rw [hdir, if_pos rfl]
  simp only
  unfold fsDel
  rcases hq : (fsInsert (fsRemove fs info.new_name) info.old_name c').files
      info.ncsum_name with _ | v
  · exact absurd hq hpres
  · rfl

/-- The sidecar path `Label` derives for `d/nm` with content `c`. -/
def scPath (d : Str) (c : List Nat) : Str := joinPath d (fileHash c ++ ncS)

/-- The hash-named path `Label` derives for `d/nm` with content `c`. -/
def lpPath (d nm : Str) (c : List Nat) : Str :=
  joinPath d (fileHash c ++ dotSuffix nm)

/-- The record `Label` derives for `d/nm` with content `c`. -/
def labelInfo (d nm : Str) (c : List Nat) : FileInfo :=
  ⟨fileHash c, joinPath d nm, lpPath d nm c, scPath d c⟩

/-- The filesystem after `Label` on the single file `d/nm`. -/
def labelFS (d nm : Str) (c : List Nat) : FS :=
  fsInsert (fsRemove (fsInsert (singleFS d nm c) (scPath d c)
    (encodeInfo (labelInfo d nm c))) (joinPath d nm)) (lpPath d nm c) c

/-- The filesystem after `Restore` on the sidecar of `labelFS`. -/
def restoredFS (d nm : Str) (c : List Nat) : FS :=
  fsRemove (fsInsert (fsRemove (labelFS d nm c) (lpPath d nm c))
    (joinPath d nm) c) (scPath d c)

theorem orig_ne_scPath (d nm : Str) (c : List Nat) (h2 : ('/' : Char) ∉ nm)
    (h5 : endsB nm ncS = false) : joinPath d nm ≠ scPath d c := by
  intro h
  have hinj := joinPath_inj d nm (fileHash c ++ ncS) h2
    (slash_not_mem_hash_append c ncS (by decide)) h
  exact (endsB_false_iff nm ncS).mp h5 (fileHash c) hinj

theorem lpPath_ne_scPath (d nm : Str) (c : List Nat) (h2 : ('/' : Char) ∉ nm)
    (h3 : nm.contains '.' = true) (h5 : endsB nm ncS = false) :
    lpPath d nm c ≠ scPath d c := by
  intro h
  have hinj := joinPath_inj d (fileHash c ++ dotSuffix nm) (fileHash c ++ ncS)
    (slash_not_mem_hash_append c (dotSuffix nm) (slash_not_mem_dotSuffix nm h2))
    (slash_not_mem_hash_append c ncS (by decide)) h
  have hds : dotSuffix nm = ncS := List.append_cancel_left hinj
  have := endsB_dotSuffix nm h3
  rw [hds, h5] at this
  cases this

theorem nameOne_label_named (d nm : Str) (c : List Nat)
    (h1 : nm ≠ []) (h2 : ('/' : Char) ∉ nm) (h3 : nm.contains '.' = true)
    (h5 : endsB nm ncS = false) :
    nameOne (singleFS d nm c) (joinPath d nm) = ⟨labelFS d nm c, [], none⟩ := by
  unfold labelFS labelInfo lpPath scPath
  exact nameOne_label d nm c h1 h2 h3 (orig_ne_scPath d nm c h2 h5)

theorem labelFS_files_sc (d nm : Str) (c : List Nat) (h2 : ('/' : Char) ∉ nm)
    (h3 : nm.contains '.' = true) (h5 : endsB nm ncS = false) :
    (labelFS d nm c).files (scPath d c) = some (encodeInfo (labelInfo d nm c)) := by
  unfold labelFS
  rw [fsInsert_files, if_neg (Ne.symm (lpPath_ne_scPath d nm c h2 h3 h5)),
    fsRemove_files, if_neg (Ne.symm (orig_ne_scPath d nm c h2 h5)),
    fsInsert_files, if_pos rfl]

theorem labelFS_files_lp (d nm : Str) (c : List Nat) :
    (labelFS d nm c).files (lpPath d nm c) = some c := by
  unfold labelFS
  rw [fsInsert_files, if_pos rfl]

theorem restore_after_label (d nm : Str) (c : List Nat)
    (h1 : nm ≠ []) (h2 : ('/' : Char) ∉ nm) (h3 : nm.contains '.' = true)
    (h5 : endsB nm ncS = false) :
    renameOne (labelFS d nm c) (scPath d c) = ⟨restoredFS d nm c, [], none⟩ := by
  have hr := renameOne_restore (labelFS d nm c) (scPath d c) (labelInfo d nm c) c
    (endsB_joinPath d _ _ (endsB_append (fileHash c) ncS))
    (labelFS_files_sc d nm c h2 h3 h5)
    (labelFS_files_lp d nm c)
    (by
      rw [show (labelInfo d nm c).old_name = joinPath d nm from rfl,
        parentOf_join d nm h1 h2]
      exact dirOk_of_dirs _ d rfl)
    (by
      rw [show (labelInfo d nm c).ncsum_name = scPath d c from rfl,
        show (labelInfo d nm c).old_name = joinPath d nm from rfl,
        show (labelInfo d nm c).new_name = lpPath d nm c from rfl,
        fsInsert_files, if_neg (orig_ne_scPath d nm c h2 h5).symm,
        fsRemove_files, if_neg (lpPath_ne_scPath d nm c h2 h3 h5).symm,
        labelFS_files_sc d nm c h2 h3 h5]
      simp)
  rw [hr]
  rfl

theorem restoredFS_orig (d nm : Str) (c : List Nat) (h2 : ('/' : Char) ∉ nm)
    (h5 : endsB nm ncS = false) :
    (restoredFS d nm c).files (joinPath d nm) = some c := by
  unfold restoredFS
  rw [fsRemove_files, if_neg (orig_ne_scPath d nm c h2 h5),
    fsInsert_files, if_pos rfl]

theorem restoredFS_sc (d nm : Str) (c : List Nat) :
    (restoredFS d nm c).files (scPath d c) = none := by
  unfold restoredFS
  rw [fsRemove_files, if_pos rfl]

theorem restoredFS_lp (d nm : Str) (c : List Nat) (h2 : ('/' : Char) ∉ nm)
    (h3 : nm.contains '.' = true) (h5 : endsB nm ncS = false)
    (hne : lpPath d nm c ≠ joinPath d nm) :
    (restoredFS d nm c).files (lpPath d nm c) = none := by
  unfold restoredFS
  rw [fsRemove_files, if_neg (lpPath_ne_scPath d nm c h2 h3 h5),
    fsInsert_files, if_neg hne, fsRemove_files, if_pos rfl]

theorem joinPath_nil (x : Str) : joinPath [] x = x := by
  unfold joinPath
  by_cases hh : x.head? = some '/'
  · rw [if_pos hh]
  · rw [if_neg hh, if_pos rfl]

theorem hash_append_ne_short (c : List Nat) (s t : Str)
    (h : s.length + 32 ≠ t.length) : fileHash c ++ s ≠ t := by
  intro he
  have hl := congrArg List.length he
  rw [List.length_append, fileHash_length] at hl
  omega

theorem endsB_scPath (d : Str) (c : List Nat) : endsB (scPath d c) ncS = true :=
  endsB_joinPath d _ _ (endsB_append (fileHash c) ncS)

theorem dotSuffix_ancsum : dotSuffix "a.ncsum".data = ncS := by decide

theorem lp_eq_sc_ancsum (c : List Nat) :
    lpPath [] "a.ncsum".data c = scPath [] c := by
  unfold lpPath scPath
  rw [dotSuffix_ancsum]

theorem nameOne_ancsum (c : List Nat) :
    nameOne (singleFS [] "a.ncsum".data c) (joinPath [] "a.ncsum".data) =
      ⟨labelFS [] "a.ncsum".data c, [], none⟩ := by
  unfold labelFS labelInfo lpPath scPath
  exact nameOne_label [] "a.ncsum".data c (by decide) (by decide) (by decide)
    (by
      rw [joinPath_nil, joinPath_nil]
      exact (hash_append_ne_short c ncS "a.ncsum".data (by decide)).symm)

theorem labelFS_ancsum_orig (c : List Nat) :
    (labelFS [] "a.ncsum".data c).files (joinPath [] "a.ncsum".data) = none := by
  unfold labelFS
  rw [fsInsert_files, if_neg (by
    unfold lpPath
    rw [joinPath_nil, joinPath_nil, dotSuffix_ancsum]
    exact (hash_append_ne_short c ncS "a.ncsum".data (by decide)).symm)]
  rw [fsRemove_files, if_pos rfl]

theorem labelFS_ancsum_sc (c : List Nat) :
    (labelFS [] "a.ncsum".data c).files (scPath [] c) = some c := by
  unfold labelFS
  rw [fsInsert_files, if_pos (lp_eq_sc_ancsum c).symm]

theorem renameOne_ancsum (c : List Nat) (hdec : decodeInfo c = none) :
    renameOne (labelFS [] "a.ncsum".data c) (scPath [] c) =
      ⟨labelFS [] "a.ncsum".data c, [], some RunErr.codecErr⟩ := by
  unfold renameOne
  rw [if_pos (endsB_scPath [] c)]
  rw [labelFS_ancsum_sc]
  simp only
  rw [hdec]

/-! ## Claim theorems -/

/-- C1 (counterexample): for the file `a.ncsum` with content `[0]` — a name
that contains a `.` — `Label` succeeds but clobbers its own sidecar with
the file content (the hash-named path equals the sidecar path), so
`Restore` on the produced sidecar aborts with a decode error and afterwards
no file exists at the original path: the round trip fails. -/
theorem c1_label_restore_cex :
    (nameOne (singleFS [] "a.ncsum".data [0]) (joinPath [] "a.ncsum".data)).err
        = none ∧
    renameOne (nameOne (singleFS [] "a.ncsum".data [0])
        (joinPath [] "a.ncsum".data)).fs (scPath [] [0]) =
      ⟨labelFS [] "a.ncsum".data [0], [], some RunErr.codecErr⟩ ∧
    (renameOne (nameOne (singleFS [] "a.ncsum".data [0])
        (joinPath [] "a.ncsum".data)).fs (scPath [] [0])).fs.files
      (joinPath [] "a.ncsum".data) = none := by
  rw [nameOne_ancsum [0]]
  refine ⟨rfl, ?_, ?_⟩
  · exact renameOne_ancsum [0] (by decide)
  · rw [show (⟨labelFS [] "a.ncsum".data [0], [], none⟩ : StepRes).fs
        = labelFS [] "a.ncsum".data [0] from rfl, renameOne_ancsum [0] (by decide)]
    exact labelFS_ancsum_orig [0]

/-- C1 (amended): for every directory `d` and file `d/nm` with content `c`,
where `nm` contains a `.` and does not end in `.ncsum`, `Label` followed by
`Restore` on the produced sidecar restores the content byte-identically at
the original path and leaves neither the sidecar nor (when distinct from
the original path) the hash-named file behind. -/
theorem c1_label_restore_roundtrip (d nm : Str) (c : List Nat)
    (h1 : nm ≠ []) (h2 : ('/' : Char) ∉ nm) (h3 : nm.contains '.' = true)
    (h5 : endsB nm ncS = false) :
    nameOne (singleFS d nm c) (joinPath d nm) = ⟨labelFS d nm c, [], none⟩ ∧
    renameOne (labelFS d nm c) (scPath d c) = ⟨restoredFS d nm c, [], none⟩ ∧
    (restoredFS d nm c).files (joinPath d nm) = some c ∧
    (restoredFS d nm c).files (scPath d c) = none ∧
    (lpPath d nm c ≠ joinPath d nm →
      (restoredFS d nm c).files (lpPath d nm c) = none) :=
  ⟨nameOne_label_named d nm c h1 h2 h3 h5,
   restore_after_label d nm c h1 h2 h3 h5,
   restoredFS_orig d nm c h2 h5,
   restoredFS_sc d nm c,
   restoredFS_lp d nm c h2 h3 h5⟩

/-- C1 (witness): the round trip at `report.txt` with content `"hello"`. -/
theorem c1_label_restore_roundtrip_witness :
    ("report.txt".data ≠ ([] : Str) ∧ ('/' : Char) ∉ "report.txt".data ∧
      "report.txt".data.contains '.' = true ∧
      endsB "report.txt".data ncS = false) ∧
    (nameOne (singleFS [] "report.txt".data [104, 101, 108, 108, 111])
        (joinPath [] "report.txt".data) =
      ⟨labelFS [] "report.txt".data [104, 101, 108, 108, 111], [], none⟩ ∧
    renameOne (labelFS [] "report.txt".data [104, 101, 108, 108, 111])
        (scPath [] [104, 101, 108, 108, 111]) =
      ⟨restoredFS [] "report.txt".data [104, 101, 108, 108, 111], [], none⟩ ∧
    (restoredFS [] "report.txt".data [104, 101, 108, 108, 111]).files
      (joinPath [] "report.txt".data) = some [104, 101, 108, 108, 111] ∧
    (restoredFS [] "report.txt".data [104, 101, 108, 108, 111]).files
      (scPath [] [104, 101, 108, 108, 111]) = none ∧
    (lpPath [] "report.txt".data [104, 101, 108, 108, 111] ≠
        joinPath [] "report.txt".data →
      (restoredFS [] "report.txt".data [104, 101, 108, 108, 111]).files
        (lpPath [] "report.txt".data [104, 101, 108, 108, 111]) = none)) :=
  ⟨⟨by decide, by decide, by decide, by decide⟩,
   c1_label_restore_roundtrip [] "report.txt".data [104, 101, 108, 108, 111]
     (by decide) (by decide) (by decide) (by decide)⟩

/-- C3 (counterexample): the digest the tool computes for the five bytes
`"hello"` is not the 31-character string `5d41402abc4b2a76b9719d911017c59`:
every digest the tool produces has 32 hex characters (and is the md5 of the
content zero-padded to the full 1 MiB read buffer, not of the raw bytes). -/
theorem c3_hello_digest_cex :
    fileHash [104, 101, 108, 108, 111] ≠
      "5d41402abc4b2a76b9719d911017c59".data := by
  intro h
  have hl := congrArg List.length h
  rw [fileHash_length] at hl
  exact absurd hl (by decide)

theorem dotSuffix_report : dotSuffix "report.txt".data = ".txt".data := by decide

/-- C3 (amended): labeling `report.txt` with content `"hello"` produces the
hash-named file `<h>.txt` and the sidecar `<h>.ncsum` — where `<h>` is the
32-character digest the tool computes (the md5 of `"hello"` zero-padded to
1 MiB, which differs from the spec's 31-character string) — the sidecar
records the mapping back to `report.txt`, and `Restore` on that sidecar
reproduces `report.txt` with content `"hello"` and removes both generated
files. -/
theorem c3_hello_scenario :
    (fileHash [104, 101, 108, 108, 111]).length = 32 ∧
    fileHash [104, 101, 108, 108, 111] ≠
      "5d41402abc4b2a76b9719d911017c59".data ∧
    nameOne (singleFS [] "report.txt".data [104, 101, 108, 108, 111])
        (joinPath [] "report.txt".data) =
      ⟨labelFS [] "report.txt".data [104, 101, 108, 108, 111], [], none⟩ ∧
    lpPath [] "report.txt".data [104, 101, 108, 108, 111] =
      fileHash [104, 101, 108, 108, 111] ++ ".txt".data ∧
    scPath [] [104, 101, 108, 108, 111] =
      fileHash [104, 101, 108, 108, 111] ++ ncS ∧
    (labelFS [] "report.txt".data [104, 101, 108, 108, 111]).files
      (lpPath [] "report.txt".data [104, 101, 108, 108, 111]) =
      some [104, 101, 108, 108, 111] ∧
    (labelFS [] "report.txt".data [104, 101, 108, 108, 111]).files
      (scPath [] [104, 101, 108, 108, 111]) =
      some (encodeInfo (labelInfo [] "report.txt".data [104, 101, 108, 108, 111])) ∧
    (labelInfo [] "report.txt".data [104, 101, 108, 108, 111]).old_name =
      "report.txt".data ∧
    decodeInfo (encodeInfo (labelInfo [] "report.txt".data [104, 101, 108, 108, 111]))
      = some (labelInfo [] "report.txt".data [104, 101, 108, 108, 111]) ∧
    renameOne (labelFS [] "report.txt".data [104, 101, 108, 108, 111])
        (scPath [] [104, 101, 108, 108, 111]) =
      ⟨restoredFS [] "report.txt".data [104, 101, 108, 108, 111], [], none⟩ ∧
    (restoredFS [] "report.txt".data [104, 101, 108, 108, 111]).files
      (joinPath [] "report.txt".data) = some [104, 101, 108, 108, 111] ∧
    (restoredFS [] "report.txt".data [104, 101, 108, 108, 111]).files
      (scPath [] [104, 101, 108, 108, 111]) = none ∧
    (restoredFS [] "report.txt".data [104, 101, 108, 108, 111]).files
      (lpPath [] "report.txt".data [104, 101, 108, 108, 111]) = none := by
  refine ⟨fileHash_length _, c3_hello_digest_cex, ?_, ?_, ?_, ?_, ?_, rfl,
    decodeInfo_encodeInfo _, ?_, ?_, ?_, ?_⟩
  · exact nameOne_label_named [] _ _ (by decide) (by decide) (by decide) (by decide)
  · unfold lpPath
    rw [dotSuffix_report, joinPath_nil]
  · unfold scPath
    rw [joinPath_nil]
  · exact labelFS_files_lp [] _ _
  · exact labelFS_files_sc [] _ _ (by decide) (by decide) (by decide)
  · exact restore_after_label [] _ _ (by decide) (by decide) (by decide) (by decide)
  · exact restoredFS_orig [] _ _ (by decide) (by decide)
  · exact restoredFS_sc [] _ _
  · refine restoredFS_lp [] _ _ (by decide) (by decide) (by decide) ?_
    unfold lpPath
    rw [dotSuffix_report, joinPath_nil, joinPath_nil]
    exact hash_append_ne_short _ _ _ (by decide)

/-- C5 (code bug): the guard `!ends_with(".ncsum") || !ends_with(".pncsum")`
at `main.rs:166` is always true, so `Label` does *not* skip inputs ending in
the sidecar suffix: on the file `a.ncsum` with content `[0]` it creates a
sidecar and renames the file (clobbering the sidecar), leaving the original
path empty — instead of performing no action. -/
theorem c5_name_guard_dead :
    (∀ s : Str, (!(endsB s ncS) || !(endsB s pncS)) = true) ∧
    nameOne (singleFS [] "a.ncsum".data [0]) (joinPath [] "a.ncsum".data) =
      ⟨labelFS [] "a.ncsum".data [0], [], none⟩ ∧
    (labelFS [] "a.ncsum".data [0]).files (joinPath [] "a.ncsum".data) = none ∧
    (labelFS [] "a.ncsum".data [0]).files (scPath [] [0]) = some [0] :=
  ⟨name_guard_true, nameOne_ancsum [0], labelFS_ancsum_orig [0], labelFS_ancsum_sc [0]⟩

/-! ## C2: the digest pads every read chunk to the full buffer -/

theorem foldl_append_pad (cs : List (List Nat)) (acc : List Nat) :
    cs.foldl (fun a c => a ++ padChunk c) acc = acc ++ (cs.map padChunk).flatten := by
  induction cs generalizing acc with
  | nil => simp
  | cons c t ih =>
    simp only [List.foldl_cons, List.map_cons, List.flatten_cons, ih,
      List.append_assoc]

theorem padChunk_length (ch : List Nat) (h : ch.length ≤ bufSize) :
    (padChunk ch).length = bufSize := by
  simp only [padChunk, List.length_append, List.length_replicate]
  omega

theorem flatten_pad_length (cs : List (List Nat))
    (hle : ∀ ch ∈ cs, ch.length ≤ bufSize) :
    ((cs.map padChunk).flatten).length = bufSize * cs.length := by
  induction cs with
  | nil => simp
  | cons c t ih =>
    simp only [List.map_cons, List.flatten_cons, List.length_append,
      List.length_cons]
    rw [padChunk_length c (hle c (List.mem_cons_self c t)),
      ih (fun ch hm => hle ch (List.mem_cons_of_mem c hm))]
    ring

theorem flatten_length_le (cs : List (List Nat))
    (hle : ∀ ch ∈ cs, ch.length ≤ bufSize) :
    (cs.flatten).length ≤ bufSize * cs.length := by
  induction cs with
  | nil => simp
  | cons c t ih =>
    simp only [List.flatten_cons, List.length_append, List.length_cons]
    have h1 := hle c (List.mem_cons_self c t)
    have h2 := ih (fun ch hm => hle ch (List.mem_cons_of_mem c hm))
    have : bufSize * (t.length + 1) = bufSize * t.length + bufSize := by ring
    omega

theorem flatten_length_lt (cs : List (List Nat))
    (hle : ∀ ch ∈ cs, ch.length ≤ bufSize)
    (hlt : ∃ ch ∈ cs, ch.length < bufSize) :
    (cs.flatten).length < bufSize * cs.length := by
  induction cs with
  | nil => simp at hlt
  | cons c t ih =>
    simp only [List.flatten_cons, List.length_append, List.length_cons]
    have hmul : bufSize * (t.length + 1) = bufSize * t.length + bufSize := by ring
    rcases hlt with ⟨ch, hm, hch⟩
    rcases List.mem_cons.mp hm with heq | hm
    · subst heq
      have h2 := flatten_length_le t (fun x hx => hle x (List.mem_cons_of_mem ch hx))
      omega
    · have h1 := hle c (List.mem_cons_self c t)
      have h2 := ih (fun x hx => hle x (List.mem_cons_of_mem c hx)) ⟨ch, hm, hch⟩
      omega

/-- C2: `get_hash` returns the md5 of the stream with each read chunk
zero-padded to the full 1048576-byte buffer, and whenever some read does
not exactly fill the buffer the hashed byte sequence differs from the raw
bytes of the stream (so the digest is computed over different input than
the standard md5 of the stream). -/
theorem c2_get_hash_zero_pads (cs : List (List Nat))
    (hle : ∀ ch ∈ cs, ch.length ≤ bufSize) :
    get_hash cs = md5hex (cs.map padChunk).flatten ∧
    ((∃ ch ∈ cs, ch.length < bufSize) →
      (cs.map padChunk).flatten ≠ cs.flatten) := by
  constructor
  · unfold get_hash
    rw [foldl_append_pad cs []]
    rw [List.nil_append]
  · intro hlt he
    have h1 := flatten_pad_length cs hle
    have h2 := flatten_length_lt cs hle hlt
    rw [he] at h1
    omega

/-- C2 (witness): a single 1-byte read. -/
theorem c2_get_hash_zero_pads_witness :
    (∀ ch ∈ [[1]], List.length ch ≤ bufSize) ∧
    (get_hash [[1]] = md5hex ([[1]].map padChunk).flatten ∧
      ((∃ ch ∈ [[1]], List.length ch < bufSize) →
        ([[1]].map padChunk).flatten ≠ [[1]].flatten)) :=
  ⟨by decide, c2_get_hash_zero_pads [[1]] (by decide)⟩

/-! ## `Check` characterizations -/

theorem checkScan_sidecar (fs : FS) (sc : Str) (info : FileInfo) (c' : List Nat)
    (hends : endsB sc ncS = true)
    (hsc : fs.files sc = some (encodeInfo info))
    (hnew : fs.files info.new_name = some c') :
    checkScan fs sc = .ok (info, fileHash c') := by
  unfold checkScan
  rw [if_pos hends, hsc]
  simp only
  rw [decodeInfo_encodeInfo]
  simp only
  rw [hnew]

/-- `Check` on a sidecar whose content digest matches the record, with
`only_show_mismatches` off: only the match message, no filesystem change. -/
theorem checkOne_match (fs : FS) (sc : Str) (info : FileInfo) (c' : List Nat)
    (sep : Bool) (hends : endsB sc ncS = true)
    (hsc : fs.files sc = some (encodeInfo info))
    (hnew : fs.files info.new_name = some c')
    (hh : info.hash = fileHash c') :
    checkOne fs sc false sep = ⟨fs, [Msg.okmsg info.old_name], none⟩ := by
  unfold checkOne
  rw [if_neg (by rw [endsB_ncsum_bare sc hends]; simp)]
  rw [checkScan_sidecar fs sc info c' hends hsc hnew]
  simp only
  rw [hh]
  simp

/-- `Check` on a sidecar whose content digest does not match the record,
with quarantine off and `only_show_mismatches` off: both the mismatch and
the match message are printed, and nothing else happens. -/
theorem checkOne_mismatch_nosep (fs : FS) (sc : Str) (info : FileInfo)
    (c' : List Nat) (hends : endsB sc ncS = true)
    (hsc : fs.files sc = some (encodeInfo info))
    (hnew : fs.files info.new_name = some c')
    (hh : info.hash ≠ fileHash c') :
    checkOne fs sc false false =
      ⟨fs, [Msg.mism info.old_name, Msg.okmsg info.old_name], none⟩ := by
  unfold checkOne
  rw [if_neg (by rw [endsB_ncsum_bare sc hends]; simp)]
  rw [checkScan_sidecar fs sc info c' hends hsc hnew]
  simp only
  simp [hh]


theorem checkOne_ancsum (c : List Nat) (hdec : decodeInfo c = none) :
    checkOne (labelFS [] "a.ncsum".data c) (scPath [] c) false false =
      ⟨labelFS [] "a.ncsum".data c, [], some RunErr.codecErr⟩ := by
  unfold checkOne
  rw [if_neg (by rw [endsB_ncsum_bare _ (endsB_scPath [] c)]; simp)]
  unfold checkScan
  rw [if_pos (endsB_scPath [] c), labelFS_ancsum_sc]
  simp only
  rw [hdec]

/-- C4 (counterexample): for the file `a.ncsum`, `Label` completes but the
rename clobbers the sidecar with the file content, so `Verify` on the
sidecar of this freshly labeled file aborts with a decode error instead of
reporting a match. -/
theorem c4_verify_after_label_cex :
    nameOne (singleFS [] "a.ncsum".data [0]) (joinPath [] "a.ncsum".data) =
      ⟨labelFS [] "a.ncsum".data [0], [], none⟩ ∧
    checkOne (labelFS [] "a.ncsum".data [0]) (scPath [] [0]) false false =
      ⟨labelFS [] "a.ncsum".data [0], [], some RunErr.codecErr⟩ := by
  exact ⟨nameOne_ancsum [0], checkOne_ancsum [0] (by decide)⟩

/-- C4 (amended): the digest is deterministic, and for every file whose
name contains a `.` and does not end in `.ncsum`, `Verify` on the sidecar
of the freshly labeled file reports a match (the match message, no
mismatch message, no error). -/
theorem c4_deterministic_verify (d nm : Str) (c : List Nat)
    (h1 : nm ≠ []) (h2 : ('/' : Char) ∉ nm) (h3 : nm.contains '.' = true)
    (h5 : endsB nm ncS = false) :
    (∀ cs : List (List Nat), get_hash cs = get_hash cs) ∧
    nameOne (singleFS d nm c) (joinPath d nm) = ⟨labelFS d nm c, [], none⟩ ∧
    checkOne (labelFS d nm c) (scPath d c) false false =
      ⟨labelFS d nm c, [Msg.okmsg (joinPath d nm)], none⟩ :=
  ⟨fun _ => rfl,
   nameOne_label_named d nm c h1 h2 h3 h5,
   checkOne_match (labelFS d nm c) (scPath d c) (labelInfo d nm c) c false
     (endsB_scPath d c)
     (labelFS_files_sc d nm c h2 h3 h5)
     (labelFS_files_lp d nm c)
     rfl⟩

/-- C4 (witness): verification after labeling `report.txt` with
content `"hello"`. -/
theorem c4_deterministic_verify_witness :
    ("report.txt".data ≠ ([] : Str) ∧ ('/' : Char) ∉ "report.txt".data ∧
      "report.txt".data.contains '.' = true ∧
      endsB "report.txt".data ncS = false) ∧
    ((∀ cs : List (List Nat), get_hash cs = get_hash cs) ∧
     nameOne (singleFS [] "report.txt".data [104, 101, 108, 108, 111])
        (joinPath [] "report.txt".data) =
       ⟨labelFS [] "report.txt".data [104, 101, 108, 108, 111], [], none⟩ ∧
     checkOne (labelFS [] "report.txt".data [104, 101, 108, 108, 111])
        (scPath [] [104, 101, 108, 108, 111]) false false =
       ⟨labelFS [] "report.txt".data [104, 101, 108, 108, 111],
         [Msg.okmsg (joinPath [] "report.txt".data)], none⟩) :=
  ⟨⟨by decide, by decide, by decide, by decide⟩,
   c4_deterministic_verify [] "report.txt".data [104, 101, 108, 108, 111]
     (by decide) (by decide) (by decide) (by decide)⟩

/-! ## C6: `Restore` on an unrecognized suffix -/

/-- `Rename` on an input whose name ends in neither `.ncsum` nor `.pncsum`
falls through to the common tail with the empty placeholder record and
attempts `rename("", "")`, which fails, printing the error and exiting. -/
theorem renameOne_fallthrough (fs : FS) (f : Str)
    (h1 : endsB f ncS = false) (h2 : endsB f pncS = false)
    (h3 : fs.files [] = none) :
    renameOne fs f = ⟨fs, [], some RunErr.fsErr⟩ := by
  unfold renameOne
  rw [if_neg (by rw [h1]; simp), if_neg (by rw [h2]; simp)]
  unfold renameTail fsRename
  rw [show emptyInfo.new_name = ([] : Str) from rfl, h3]

/-- A directory with `foo.txt` plus a valid restorable pair
(`b.ncsum` / `bb.txt`). -/
def c6fs : FS :=
  ⟨fun q =>
    if q = "foo.txt".data then some [1]
    else if q = "b.ncsum".data then
      some (encodeInfo ⟨"aa".data, "orig.txt".data, "bb.txt".data, "b.ncsum".data⟩)
    else if q = "bb.txt".data then some [2]
    else none, []⟩

/-- C6 (counterexample): `Restore` on `[foo.txt, b.ncsum]` aborts with an
error on `foo.txt` (the unrecognized suffix is not silently skipped), the
filesystem is unchanged, and the remaining input `b.ncsum` — a valid
restorable sidecar — is never processed. -/
theorem c6_unrecognized_cex :
    renameRun c6fs ["foo.txt".data, "b.ncsum".data] =
      ⟨c6fs, [], some RunErr.fsErr⟩ ∧
    c6fs.files "b.ncsum".data =
      some (encodeInfo ⟨"aa".data, "orig.txt".data, "bb.txt".data, "b.ncsum".data⟩) := by
  refine ⟨?_, by decide⟩
  have h := renameOne_fallthrough c6fs "foo.txt".data (by decide) (by decide) (by decide)
  simp only [renameRun]
  rw [h]

/-- C6 (amended): for every input path to Restore whose file name ends in
neither `.ncsum` nor `.pncsum`, the operation leaves the filesystem
unchanged but does *not* silently move on: it attempts to rename the empty
placeholder paths, reports the failure and aborts the run. -/
theorem c6_unrecognized_aborts (fs : FS) (f : Str)
    (h1 : endsB f ncS = false) (h2 : endsB f pncS = false)
    (h3 : fs.files [] = none) :
    renameOne fs f = ⟨fs, [], some RunErr.fsErr⟩ :=
  renameOne_fallthrough fs f h1 h2 h3

/-- C6 (witness). -/
theorem c6_unrecognized_aborts_witness :
    (endsB "foo.txt".data ncS = false ∧ endsB "foo.txt".data pncS = false ∧
      c6fs.files [] = none) ∧
    renameOne c6fs "foo.txt".data = ⟨c6fs, [], some RunErr.fsErr⟩ :=
  ⟨⟨by decide, by decide, by decide⟩,
   c6_unrecognized_aborts c6fs "foo.txt".data (by decide) (by decide) (by decide)⟩

/-! ## C7: truncated containers -/

/-- Modelled from the spec: a two-entry container (record entry, payload
entry, trailer) whose file has been truncated `k` bytes into the payload
entry's bytes — the payload header still declares the full length, the
trailer is cut off. -/
def truncContainer (rn : Str) (info : FileInfo) (pn : Str) (pb : List Nat)
    (k : Nat) : List Nat :=
  encodeEntry rn (encodeInfo info) ++
    (1 :: pn.length :: (pn.map Char.toNat ++ (pb.length :: pb.take k)))

/-- Truncating the intact container `record ++ payload ++ trailer` inside
the payload bytes yields exactly `truncContainer`. -/
theorem truncContainer_eq_take (rn : Str) (info : FileInfo) (pn : Str)
    (pb : List Nat) (k : Nat) (hk : k ≤ pb.length) :
    truncContainer rn info pn pb k =
      (encodeEntry rn (encodeInfo info) ++ (encodeEntry pn pb ++ trailerBytes)).take
        ((encodeEntry rn (encodeInfo info)).length + (2 + (pn.length + (1 + k)))) := by
  rw [List.take_append]
  unfold truncContainer
  congr 1
  rw [show (encodeEntry pn pb ++ trailerBytes : List Nat) =
    1 :: pn.length :: ((pn.map Char.toNat ++ (pb.length :: pb)) ++ trailerBytes)
    from by simp [encodeEntry]]
  rw [show (2 + (pn.length + (1 + k))) = (pn.length + (1 + k) + 1) + 1 by omega]
  rw [List.take_succ_cons, List.take_succ_cons]
  congr 1
  rw [show ((pn.map Char.toNat ++ (pb.length :: pb)) ++ trailerBytes : List Nat) =
    pn.map Char.toNat ++ (pb.length :: (pb ++ trailerBytes)) from by simp]
  rw [show pn.length = (pn.map Char.toNat).length by simp]
  rw [List.take_append]
  congr 1
  rw [show (1 + k) = k + 1 by omega, List.take_succ_cons]
  rw [List.take_append_of_le_length hk]

theorem readEntry_trunc (pn : Str) (pb : List Nat) (k : Nat) (hk : k < pb.length) :
    readEntry (1 :: pn.length :: (pn.map Char.toNat ++ (pb.length :: pb.take k))) =
      .error RunErr.streamErr := by
  show (if pn.length ≤ (pn.map Char.toNat ++ (pb.length :: pb.take k)).length then
      match (pn.map Char.toNat ++ (pb.length :: pb.take k)).drop pn.length with
      | [] => Except.error RunErr.streamErr
      | len :: r4 =>
        if len ≤ r4.length then
          Except.ok (EntryStep.entry
            (((pn.map Char.toNat ++ (pb.length :: pb.take k)).take pn.length).map
              (fun j => Char.ofNat j))
            (r4.take len) (r4.drop len))
        else Except.error RunErr.streamErr
    else Except.error RunErr.streamErr) = Except.error RunErr.streamErr
  rw [if_pos (by simp [List.length_take])]
  rw [show (pn.map Char.toNat ++ (pb.length :: pb.take k)).drop pn.length
      = pb.length :: pb.take k from by
    rw [List.drop_append_of_le_length (by simp),
      List.drop_of_length_le (by simp), List.nil_append]]
  simp only
  rw [if_neg (by
    rw [List.length_take]
    omega)]

theorem unpackLoop_trunc (rn : Str) (info : FileInfo) (pn : Str)
    (pb : List Nat) (k : Nat) (hrn : endsB rn ncS = true) (hk : k < pb.length) :
    unpackLoop ((truncContainer rn info pn pb k).length + 1)
        (truncContainer rn info pn pb k) emptyInfo [] =
      .error (RunErr.streamErr, []) := by
  unfold truncContainer
  simp only [unpackLoop]
  rw [readEntry_encodeEntry]
  simp only
  rw [if_pos hrn, decodeInfo_encodeInfo]
  simp only
  rw [readEntry_trunc pn pb k hk]

theorem renameOne_trunc (fs : FS) (cf rn : Str) (info : FileInfo)
    (pn : Str) (pb : List Nat) (k : Nat)
    (h1 : endsB cf pncS = true) (hrn : endsB rn ncS = true) (hk : k < pb.length)
    (hfs : fs.files cf = some (truncContainer rn info pn pb k))
    (hdir : dirOk fs (parentOf (replaceAll cf pncS tncS)) = true) :
    renameOne fs cf =
      ⟨fsInsert fs (replaceAll cf pncS tncS) [], [], some RunErr.streamErr⟩ := by
  unfold renameOne
  rw [if_neg (by rw [endsB_pncsum_not_ncsum cf h1]; simp), if_pos h1, hfs]
  simp only
  rw [hdir, if_pos rfl]
  rw [unpackLoop_trunc rn info pn pb k hrn hk]

/-- The record inside the concrete truncated container of the C7 scenario. -/
def c7info : FileInfo :=
  ⟨"aa".data, "orig.txt".data, "x.txt".data, "y.ncsum".data⟩

/-- The concrete truncated container: payload `[1, 2, 3]` cut after 1 byte. -/
def c7bytes : List Nat := truncContainer "r.ncsum".data c7info "p.txt".data [1, 2, 3] 1

/-- A directory holding only the truncated container `c.pncsum`. -/
def c7fs : FS := ⟨fun q => if q = "c.pncsum".data then some c7bytes else none, []⟩

/-- C7 (counterexample): `Unbundle` (Rename) on a container whose payload
entry is truncated fails with the container-stream error — not with the
`IntegrityMismatch` ("error occurred while unpacking") condition — and no
restored file exists at the recorded original path afterwards. -/
theorem c7_truncated_cex :
    (renameOne c7fs "c.pncsum".data).err = some RunErr.streamErr ∧
    RunErr.streamErr ≠ RunErr.unpackMismatch ∧
    (renameOne c7fs "c.pncsum".data).fs.files "orig.txt".data = none := by
  refine ⟨?_, by decide, ?_⟩
  · rw [renameOne_trunc c7fs "c.pncsum".data "r.ncsum".data c7info "p.txt".data
      [1, 2, 3] 1 (by decide) (by decide) (by decide) rfl (by decide)]
  · rw [renameOne_trunc c7fs "c.pncsum".data "r.ncsum".data c7info "p.txt".data
      [1, 2, 3] 1 (by decide) (by decide) (by decide) rfl (by decide)]
    decide

/-- C7 (amended): for every container file whose payload entry is truncated
(the byte stream of `record entry ++ payload entry ++ trailer` cut inside
the payload bytes), `Unbundle` fails with the fatal container-stream error
(the spec's `ContainerCorrupt`, not `IntegrityMismatch`: the stream reader
aborts before the digest comparison is ever reached), the only filesystem
change is the created empty `.tncsum` temporary, and no restored file
appears at the recorded original path. -/
theorem c7_truncated_unbundle (fs : FS) (cf rn : Str) (info : FileInfo)
    (pn : Str) (pb : List Nat) (k : Nat)
    (h1 : endsB cf pncS = true) (hrn : endsB rn ncS = true) (hk : k < pb.length)
    (hfs : fs.files cf = some (truncContainer rn info pn pb k))
    (hdir : dirOk fs (parentOf (replaceAll cf pncS tncS)) = true) :
    truncContainer rn info pn pb k =
      (encodeEntry rn (encodeInfo info) ++ (encodeEntry pn pb ++ trailerBytes)).take
        ((encodeEntry rn (encodeInfo info)).length + (2 + (pn.length + (1 + k)))) ∧
    renameOne fs cf =
      ⟨fsInsert fs (replaceAll cf pncS tncS) [], [], some RunErr.streamErr⟩ ∧
    (info.old_name ≠ replaceAll cf pncS tncS →
      (fsInsert fs (replaceAll cf pncS tncS) []).files info.old_name =
        fs.files info.old_name) :=
  ⟨truncContainer_eq_take rn info pn pb k (Nat.le_of_lt hk),
   renameOne_trunc fs cf rn info pn pb k h1 hrn hk hfs hdir,
   fun hne => by rw [fsInsert_files, if_neg hne]⟩

/-- C7 (witness): the concrete truncated container. -/
theorem c7_truncated_unbundle_witness :
    (endsB "c.pncsum".data pncS = true ∧ endsB "r.ncsum".data ncS = true ∧
      1 < List.length [1, 2, 3] ∧
      c7fs.files "c.pncsum".data =
        some (truncContainer "r.ncsum".data c7info "p.txt".data [1, 2, 3] 1) ∧
      dirOk c7fs (parentOf (replaceAll "c.pncsum".data pncS tncS)) = true) ∧
    (truncContainer "r.ncsum".data c7info "p.txt".data [1, 2, 3] 1 =
      (encodeEntry "r.ncsum".data (encodeInfo c7info) ++
        (encodeEntry "p.txt".data [1, 2, 3] ++ trailerBytes)).take
        ((encodeEntry "r.ncsum".data (encodeInfo c7info)).length +
          (2 + ("p.txt".data.length + (1 + 1)))) ∧
    renameOne c7fs "c.pncsum".data =
      ⟨fsInsert c7fs (replaceAll "c.pncsum".data pncS tncS) [], [],
        some RunErr.streamErr⟩ ∧
    (c7info.old_name ≠ replaceAll "c.pncsum".data pncS tncS →
      (fsInsert c7fs (replaceAll "c.pncsum".data pncS tncS) []).files
        c7info.old_name = c7fs.files c7info.old_name)) :=
  ⟨⟨by decide, by decide, by decide, rfl, by decide⟩,
   c7_truncated_unbundle c7fs "c.pncsum".data "r.ncsum".data c7info "p.txt".data
     [1, 2, 3] 1 (by decide) (by decide) (by decide) rfl (by decide)⟩

/-! ## C8: quarantine -/

theorem short_ne_fileHash (s : Str) (c : List Nat) (h : s.length ≠ 32) :
    s ≠ fileHash c := by
  intro he
  rw [← fileHash_length c, he] at h
  exact h rfl

/-- The sidecar record of the C8 counterexample: absolute recorded paths,
recorded digest `zz` (which cannot match any recomputed digest). -/
def q8info : FileInfo :=
  ⟨"zz".data, "/d/a.txt".data, "/d/cont.txt".data, "/d/h.ncsum".data⟩

/-- Directory `/d` holding the sidecar and the (corrupted) content file. -/
def q8fs (c : List Nat) : FS :=
  ⟨fun q =>
    if q = "/d/h.ncsum".data then some (encodeInfo q8info)
    else if q = "/d/cont.txt".data then some c
    else none, ["/d".data]⟩

theorem checkOne_q8 (c : List Nat) (hne : q8info.hash ≠ fileHash c) :
    checkOne (q8fs c) "/d/h.ncsum".data false true =
      ⟨fsInsert (fsRemove (fsInsert (fsRemove (fsMkdirAll (q8fs c) "/d/zz".data)
          "/d/cont.txt".data) "/d/cont.txt".data c) "/d/h.ncsum".data)
        "/d/zz/h.ncsum".data (encodeInfo q8info),
       [Msg.mism "/d/a.txt".data, Msg.okmsg "/d/a.txt".data], none⟩ := by
  unfold checkOne
  rw [if_neg (by decide)]
  rw [checkScan_sidecar (q8fs c) "/d/h.ncsum".data q8info c (by decide) rfl rfl]
  simp only
  rw [if_pos hne]
  rw [if_pos (show q8info.hash ≠ fileHash c ∧ True from ⟨hne, trivial⟩)]
  rfl

/-- C8 (counterexample): quarantine on a mismatching sidecar whose record
holds absolute paths (as Label records for absolute inputs): Verify
succeeds and moves the sidecar into `/d/zz/`, but the mismatching content
file stays at `/d/cont.txt` — because `sdir.join(info.new_name)` with an
absolute `new_name` is `new_name` itself, the content is renamed onto
itself and never enters the quarantine directory. -/
theorem c8_quarantine_cex :
    (checkOne (q8fs [7, 8]) "/d/h.ncsum".data false true).err = none ∧
    (checkOne (q8fs [7, 8]) "/d/h.ncsum".data false true).fs.files
      "/d/cont.txt".data = some [7, 8] ∧
    (checkOne (q8fs [7, 8]) "/d/h.ncsum".data false true).fs.files
      "/d/zz/cont.txt".data = none ∧
    (checkOne (q8fs [7, 8]) "/d/h.ncsum".data false true).fs.files
      "/d/zz/h.ncsum".data = some (encodeInfo q8info) := by
  rw [checkOne_q8 [7, 8] (short_ne_fileHash _ _ (by decide))]
  exact ⟨rfl, by decide, by decide, by decide⟩

theorem fsMkdirAll_files (fs : FS) (d : Str) (q : Str) :
    (fsMkdirAll fs d).files q = fs.files q := rfl

theorem joinPath_eq_append (a b : Str) (ha1 : a ≠ []) (ha2 : ('/' : Char) ∉ a)
    (hb : b.head? ≠ some '/') : joinPath a b = a ++ '/' :: b := by
  unfold joinPath
  rw [if_neg hb, if_neg ha1,
    if_neg (fun h => ha2 (by rw [h]; exact List.mem_cons_self '/' []))]

/-- A working directory holding exactly a sidecar (bare name `base`) and
the content file it references (bare name `new`), the record carrying the
recorded digest `hr`. -/
def bareFS (hr old new base : Str) (c : List Nat) : FS :=
  ⟨fun q =>
    if q = base then some (encodeInfo ⟨hr, old, new, base⟩)
    else if q = new then some c
    else none, []⟩

theorem bareFS_files_base (hr old new base : Str) (c : List Nat) :
    (bareFS hr old new base c).files base =
      some (encodeInfo ⟨hr, old, new, base⟩) := by
  unfold bareFS
  simp

theorem bareFS_files_new (hr old new base : Str) (c : List Nat)
    (hdist : new ≠ base) : (bareFS hr old new base c).files new = some c := by
  unfold bareFS
  simp only
  rw [if_neg hdist]
  simp

/-- C8 (amended): with bare (working-directory relative) names, quarantine
does work as claimed: on a digest mismatch with `separate-mismatches` on,
both the content file and the sidecar end up under the `<digest>/`
directory next to them, under their original base names. -/
theorem c8_quarantine_bare (hr old new base : Str) (c : List Nat)
    (hb1 : endsB base ncS = true) (hb2 : ('/' : Char) ∉ base)
    (hn1 : new ≠ []) (hn2 : ('/' : Char) ∉ new)
    (hh1 : hr ≠ []) (hh2 : ('/' : Char) ∉ hr)
    (hdist : new ≠ base) (hne : hr ≠ fileHash c) :
    ∃ fs3 : FS,
      checkOne (bareFS hr old new base c) base false true =
        ⟨fs3, [Msg.mism old, Msg.okmsg old], none⟩ ∧
      fs3.files (joinPath hr new) = some c ∧
      fs3.files (joinPath hr base) = some (encodeInfo ⟨hr, old, new, base⟩) := by
  have hbne : base ≠ [] := by
    obtain ⟨p, hp⟩ := (endsB_iff _ _).mp hb1
    rw [hp]
    simp [ncS]
  have hpb : parentOf base = some [] := by
    have h := parentOf_join [] base hbne hb2
    rwa [joinPath_nil] at h
  have hbb : baseName base = base := by
    have h := baseName_join [] base hbne hb2
    rwa [joinPath_nil] at h
  have hjoin : joinPath hr new = hr ++ '/' :: new :=
    joinPath_eq_append hr new hh1 hh2 (head_ne_slash new hn2)
  have hofile_slash : ('/' : Char) ∈ joinPath hr new := by
    rw [hjoin]
    exact List.mem_append.mpr (Or.inr (List.mem_cons_self '/' new))
  have hbase_ne_ofile : base ≠ joinPath hr new := by
    intro he
    exact hb2 (he ▸ hofile_slash)
  have hnfile_ne_ofile : joinPath hr new ≠ joinPath hr base := by
    intro he
    exact hdist (joinPath_inj hr new base hn2 hb2 he)
  refine ⟨fsInsert (fsRemove (fsInsert (fsRemove
      (fsMkdirAll (bareFS hr old new base c) hr) new) (joinPath hr new) c)
      base) (joinPath hr base) (encodeInfo ⟨hr, old, new, base⟩), ?_, ?_, ?_⟩
  · unfold checkOne
    rw [if_neg (by rw [endsB_ncsum_bare base hb1]; simp)]
    rw [checkScan_sidecar (bareFS hr old new base c) base ⟨hr, old, new, base⟩ c
      hb1 (bareFS_files_base hr old new base c) (bareFS_files_new hr old new base c hdist)]
    simp only
    rw [if_pos (show (⟨hr, old, new, base⟩ : FileInfo).hash ≠ fileHash c from hne)]
    rw [if_pos (show (⟨hr, old, new, base⟩ : FileInfo).hash ≠ fileHash c ∧ True
      from ⟨hne, trivial⟩)]
    rw [hpb]
    simp only
    rw [joinPath_nil]
    rw [hbb, if_neg hbne, if_pos hb1]
    rw [show fsRename (fsMkdirAll (bareFS hr old new base c) hr) new (joinPath hr new)
        = some (fsInsert (fsRemove (fsMkdirAll (bareFS hr old new base c) hr) new)
            (joinPath hr new) c) from by
      unfold fsRename
      rw [fsMkdirAll_files, bareFS_files_new hr old new base c hdist]
      rw [parentOf_join hr new hn1 hn2]
      rw [dirOk_of_dirs _ hr rfl]
      rfl]
    simp only
    rw [show fsRename (fsInsert (fsRemove (fsMkdirAll (bareFS hr old new base c) hr)
          new) (joinPath hr new) c) base (joinPath hr base)
        = some (fsInsert (fsRemove (fsInsert (fsRemove
            (fsMkdirAll (bareFS hr old new base c) hr) new) (joinPath hr new) c)
            base) (joinPath hr base) (encodeInfo ⟨hr, old, new, base⟩)) from by
      unfold fsRename
      rw [fsInsert_files, if_neg hbase_ne_ofile, fsRemove_files,
        if_neg (Ne.symm hdist), fsMkdirAll_files, bareFS_files_base hr old new base c]
      rw [parentOf_join hr base hbne hb2]
      rw [dirOk_of_dirs _ hr rfl]
      rfl]
    rfl
  · rw [fsInsert_files, if_neg hnfile_ne_ofile, fsRemove_files,
      if_neg hbase_ne_ofile.symm, fsInsert_files, if_pos rfl]
  · rw [fsInsert_files, if_pos rfl]

/-- C8 (witness): a mismatching bare-name pair is fully quarantined. -/
theorem c8_quarantine_bare_witness :
    (endsB "ha.ncsum".data ncS = true ∧ ('/' : Char) ∉ "ha.ncsum".data ∧
      "ha.txt".data ≠ ([] : Str) ∧ ('/' : Char) ∉ "ha.txt".data ∧
      "zz".data ≠ ([] : Str) ∧ ('/' : Char) ∉ "zz".data ∧
      "ha.txt".data ≠ "ha.ncsum".data ∧ "zz".data ≠ fileHash [7]) ∧
    (∃ fs3 : FS,
      checkOne (bareFS "zz".data "a.txt".data "ha.txt".data "ha.ncsum".data [7])
          "ha.ncsum".data false true =
        ⟨fs3, [Msg.mism "a.txt".data, Msg.okmsg "a.txt".data], none⟩ ∧
      fs3.files (joinPath "zz".data "ha.txt".data) = some [7] ∧
      fs3.files (joinPath "zz".data "ha.ncsum".data) =
        some (encodeInfo ⟨"zz".data, "a.txt".data, "ha.txt".data, "ha.ncsum".data⟩)) :=
  ⟨⟨by decide, by decide, by decide, by decide, by decide, by decide, by decide,
    short_ne_fileHash _ _ (by decide)⟩,
   c8_quarantine_bare "zz".data "a.txt".data "ha.txt".data "ha.ncsum".data [7]
     (by decide) (by decide) (by decide) (by decide) (by decide) (by decide)
     (by decide) (short_ne_fileHash _ _ (by decide))⟩

/-! ## C9 and C10: reporting and continuation -/

/-- Two labeled pairs in the working directory: `ha.ncsum`/`ca.txt` with a
corrupted record digest (`zz`), and `hb.ncsum`/`cb.txt` intact. -/
def fs9 : FS :=
  ⟨fun q =>
    if q = "ha.ncsum".data then
      some (encodeInfo ⟨"zz".data, "a.txt".data, "ca.txt".data, "ha.ncsum".data⟩)
    else if q = "ca.txt".data then some [7]
    else if q = "hb.ncsum".data then
      some (encodeInfo ⟨fileHash [9], "b.txt".data, "cb.txt".data, "hb.ncsum".data⟩)
    else if q = "cb.txt".data then some [9]
    else none, []⟩

/-- An empty working directory (for abort witnesses). -/
def fs9w : FS := ⟨fun _ => none, []⟩

theorem checkRun_cons_ok (fs fs2 : FS) (f : Str) (o s : Bool) (msgs : List Msg)
    (rest : List Str) (h : checkOne fs f o s = ⟨fs2, msgs, none⟩) :
    checkRun fs o s (f :: rest) =
      ⟨(checkRun fs2 o s rest).fs, msgs ++ (checkRun fs2 o s rest).msgs,
        (checkRun fs2 o s rest).err⟩ := by
  simp only [checkRun]
  rw [h]

/-- C9: a digest mismatch during `Check` does not terminate the run — it is
reported per file and the remaining inputs are still processed — while an
error in any step aborts the run, leaving the remaining inputs unprocessed
(shown for `Rename` and for `Check` itself). -/
theorem c9_mismatch_recoverable :
    checkRun fs9 false false ["ha.ncsum".data, "hb.ncsum".data] =
      ⟨fs9, [Msg.mism "a.txt".data, Msg.okmsg "a.txt".data,
        Msg.okmsg "b.txt".data], none⟩ ∧
    (∀ (fs : FS) (f : Str) (e : RunErr) (rest : List Str),
      (renameOne fs f).err = some e →
      renameRun fs (f :: rest) =
        ⟨(renameOne fs f).fs, (renameOne fs f).msgs, some e⟩) ∧
    (∀ (fs : FS) (f : Str) (o s : Bool) (e : RunErr) (rest : List Str),
      (checkOne fs f o s).err = some e →
      checkRun fs o s (f :: rest) =
        ⟨(checkOne fs f o s).fs, (checkOne fs f o s).msgs, some e⟩) := by
  refine ⟨?_, ?_, ?_⟩
  · rw [checkRun_cons_ok fs9 fs9 "ha.ncsum".data false false
      [Msg.mism "a.txt".data, Msg.okmsg "a.txt".data] ["hb.ncsum".data]
      (checkOne_mismatch_nosep fs9 "ha.ncsum".data
        ⟨"zz".data, "a.txt".data, "ca.txt".data, "ha.ncsum".data⟩ [7]
        (by decide) rfl rfl (short_ne_fileHash "zz".data [7] (by decide)))]
    rw [checkRun_cons_ok fs9 fs9 "hb.ncsum".data false false
      [Msg.okmsg "b.txt".data] []
      (checkOne_match fs9 "hb.ncsum".data
        ⟨fileHash [9], "b.txt".data, "cb.txt".data, "hb.ncsum".data⟩ [9] false
        (by decide) rfl rfl rfl)]
    rfl
  · intro fs f e rest h
    simp only [renameRun]
    rw [h]
  · intro fs f o s e rest h
    simp only [checkRun]
    rw [h]

/-- C9 (witness): the abort parts at a concrete empty directory. -/
theorem c9_mismatch_recoverable_witness :
    ((renameOne fs9w "x.txt".data).err = some RunErr.fsErr ∧
      (checkOne fs9w "x.ncsum".data false false).err = some RunErr.fsErr) ∧
    renameRun fs9w ["x.txt".data, "y.ncsum".data] =
      ⟨(renameOne fs9w "x.txt".data).fs, (renameOne fs9w "x.txt".data).msgs,
        some RunErr.fsErr⟩ ∧
    checkRun fs9w false false ["x.ncsum".data, "y.ncsum".data] =
      ⟨(checkOne fs9w "x.ncsum".data false false).fs,
        (checkOne fs9w "x.ncsum".data false false).msgs, some RunErr.fsErr⟩ :=
  ⟨⟨by decide, by decide⟩,
   c9_mismatch_recoverable.2.1 fs9w "x.txt".data RunErr.fsErr ["y.ncsum".data]
     (by decide),
   c9_mismatch_recoverable.2.2 fs9w "x.ncsum".data false false RunErr.fsErr
     ["y.ncsum".data] (by decide)⟩

theorem checkOne_msgs (fs : FS) (f : Str) (s : Bool) (i : FileInfo) (nh : Str)
    (hbare : endsB f ncBareS = true) (hscan : checkScan fs f = .ok (i, nh)) :
    (checkOne fs f false s).msgs =
      (if i.hash ≠ nh then [Msg.mism i.old_name] else []) ++
        [Msg.okmsg i.old_name] := by
  unfold checkOne
  rw [if_neg (by rw [hbare]; simp), hscan]
  simp only
  split
  · split
    · simp
    · split
      · simp
      · split
        · simp
        · split <;> simp
  · simp

/-- C10: whenever `Check` reaches the reporting step with
`only_show_mismatches` off, it prints the match message for that input —
the message is not conditioned on the digest comparison — so a mismatching
file produces both the mismatch and the match message (shown concretely in
the second conjunct). -/
theorem c10_match_message_unconditional :
    (∀ (fs : FS) (f : Str) (s : Bool) (i : FileInfo) (nh : Str),
      endsB f ncBareS = true → checkScan fs f = .ok (i, nh) →
      Msg.okmsg i.old_name ∈ (checkOne fs f false s).msgs) ∧
    checkOne fs9 "ha.ncsum".data false false =
      ⟨fs9, [Msg.mism "a.txt".data, Msg.okmsg "a.txt".data], none⟩ :=
  ⟨fun fs f s i nh hb hs => by
    rw [checkOne_msgs fs f s i nh hb hs]
    exact List.mem_append.mpr (Or.inr (List.mem_singleton.mpr rfl)),
   checkOne_mismatch_nosep fs9 "ha.ncsum".data
     ⟨"zz".data, "a.txt".data, "ca.txt".data, "ha.ncsum".data⟩ [7]
     (by decide) rfl rfl (short_ne_fileHash "zz".data [7] (by decide))⟩

/-- C10 (witness): the reporting step on the corrupted pair of `fs9`. -/
theorem c10_match_message_unconditional_witness :
    (endsB "ha.ncsum".data ncBareS = true ∧
      checkScan fs9 "ha.ncsum".data =
        .ok (⟨"zz".data, "a.txt".data, "ca.txt".data, "ha.ncsum".data⟩,
          fileHash [7])) ∧
    Msg.okmsg "a.txt".data ∈ (checkOne fs9 "ha.ncsum".data false false).msgs :=
  ⟨⟨by decide,
    checkScan_sidecar fs9 "ha.ncsum".data
      ⟨"zz".data, "a.txt".data, "ca.txt".data, "ha.ncsum".data⟩ [7]
      (by decide) rfl rfl⟩,
   c10_match_message_unconditional.1 fs9 "ha.ncsum".data false
     ⟨"zz".data, "a.txt".data, "ca.txt".data, "ha.ncsum".data⟩ (fileHash [7])
     (by decide)
     (checkScan_sidecar fs9 "ha.ncsum".data
       ⟨"zz".data, "a.txt".data, "ca.txt".data, "ha.ncsum".data⟩ [7]
       (by decide) rfl rfl)⟩
